import Mathlib

/-!
Pod mutation webhook: the admission handler of `main.go`.

A shallow embedding of `mutateHandler` (main.go, lines 47-120) and of `init`
(lines 36-45), followed by the properties proved about them.

Conventions of the embedding.

* A Go `string` / `[]byte` is a list of byte values (`GoString`); string literals of
  the source are written with `lit`.
* A value decoded by `encoding/json` into `interface{}` is a `Json`; a Go
  `map[string]interface{}` is an association list read with `mapGet` (a nil map
  reads like the empty list).
* A failing type assertion, a nil dereference and an out-of-range slice expression
  all panic: the functions return `none` there.
* The Prometheus counter vectors are functions from label triples to counts.
* Library calls on caller-supplied bytes (`json.Decoder.Decode`, `json.Unmarshal`,
  `json.Marshal` of the envelope) are the fields of a `Codec`; library calls on data
  the handler builds itself (`strconv.Atoi`, `fmt.Sprintf`, `json.Marshal` of the
  patch list) are modelled by executable definitions.
-/

namespace PodMutation

/-! ## Strings -/

/-- A Go string: its sequence of bytes, each given by its numeric value. -/
abbrev GoString := List Nat

/-- The bytes of an ASCII string literal of the source. -/
def lit (s : String) : GoString := s.toList.map Char.toNat

/-- Decimal digits of `n`, least significant first, as ASCII bytes. -/
def digitsRev : Nat → Nat → GoString
  | 0, _ => []
  | fuel + 1, n => if n < 10 then [48 + n] else (48 + n % 10) :: digitsRev fuel (n / 10)

/-- The text `fmt.Sprintf("%d", n)` prints for a slice index `n`. -/
def Itoa (n : Nat) : GoString := (digitsRev (n + 1) n).reverse

/-- Value of a run of ASCII decimal digits; `none` when the run is empty or holds a
byte that is not a digit (base 10 given explicitly: no underscores, no base marks). -/
def parseDigits : GoString → Option Nat
  | [] => none
  | ds => ds.foldl
      (fun acc ch => acc.bind fun n => if 48 ≤ ch ∧ ch ≤ 57 then some (n * 10 + (ch - 48)) else none)
      (some 0)

/-- The function `strconv.Atoi` on a 64-bit platform: an optional sign `+` or `-`,
then at least one decimal digit, the value within `[-2^63, 2^63 - 1]`; `none` is a
non-nil `err` (syntax or range). -/
def Atoi (s : GoString) : Option Int :=
  match s with
  | [] => none
  | c :: rest =>
    if c = 45 then
      match parseDigits rest with
      | some n => if n ≤ 2 ^ 63 then some (-(n : Int)) else none
      | none => none
    else
      match parseDigits (if c = 43 then rest else s) with
      | some n => if n < 2 ^ 63 then some (n : Int) else none
      | none => none

/-! ## Decoded JSON -/

/-- What `encoding/json` stores in an `interface{}`: nil, bool, float64 (its value is
never read by the handler), string, `[]interface{}`, `map[string]interface{}`. -/
inductive Json where
  | null
  | bool (b : Bool)
  | num (n : Int)
  | str (s : GoString)
  | arr (xs : List Json)
  | obj (kvs : List (GoString × Json))

/-- A Go `map[string]interface{}`. -/
abbrev JsonMap := List (GoString × Json)

/-- Map read `m[k]`: `none` is the nil interface returned for an absent key. -/
def mapGet (k : GoString) : JsonMap → Option Json
  | [] => none
  | (k', v) :: rest => if k' = k then some v else mapGet k rest

/-- The comparison `containerMap["name"] != "istio-proxy"` of line 71: an interface
value equals a string only when it holds a string with the same bytes. -/
def nameIsNot (containerMap : JsonMap) (s : GoString) : Bool :=
  match mapGet (lit "name") containerMap with
  | some (.str n) => n != s
  | _ => true

/-! ## Admission envelope -/

/-- The type `runtime.RawExtension`, reduced to the field the handler reads. -/
structure RawExtension where
  Raw : GoString

/-- The fields of `admissionv1.AdmissionRequest` the handler reads. -/
structure AdmissionRequest where
  UID : GoString
  Name : GoString
  Namespace : GoString
  Object : RawExtension

/-- The type `metav1.Status`, reduced to the field the handler writes. -/
structure Status where
  Message : GoString

/-- The type `admissionv1.PatchType`; the handler uses `PatchTypeJSONPatch` only. -/
inductive PatchType where
  | JSONPatch
  deriving DecidableEq

/-- The serialized name of a patch type. -/
def PatchType.text : PatchType → GoString
  | .JSONPatch => lit "JSONPatch"

/-- The fields of `admissionv1.AdmissionResponse` the handler writes; `none` is a nil
pointer or a nil slice. -/
structure AdmissionResponse where
  UID : GoString
  Allowed : Bool
  Result : Option Status
  Patch : Option GoString
  PatchType : Option PatchType

/-- The type `admissionv1.AdmissionReview`; `Request` and `Response` are pointers. -/
structure AdmissionReview where
  Kind : GoString
  APIVersion : GoString
  Request : Option AdmissionRequest
  Response : Option AdmissionResponse

/-! ## Patch operations -/

/-- One patch operation: the `map[string]interface{}` built at lines 81-85, all of
whose values are strings. -/
abbrev PatchOp := List (GoString × GoString)

/-- Value stored under key `k` of a patch operation. -/
def PatchOp.field (k : GoString) : PatchOp → Option GoString
  | [] => none
  | (k', v) :: rest => if k' = k then some v else PatchOp.field k rest

/-- The path `fmt.Sprintf("/spec/containers/%d/resources/requests/cpu", i)`. -/
def cpuPath (i : Nat) : GoString :=
  lit "/spec/containers/" ++ Itoa i ++ lit "/resources/requests/cpu"

/-- The map literal of lines 81-85. -/
def mkPatch (i : Nat) : PatchOp :=
  [(lit "op", lit "replace"), (lit "path", cpuPath i), (lit "value", lit "100m")]

/-! ## Encoding of the patch list (`json.Marshal(patches)`) -/

/-- Upper-case-free hexadecimal digit, as `encoding/json` prints it. -/
def hexDigit (n : Nat) : Nat := if n < 10 then 48 + n else 87 + n

/-- One byte of a JSON string as `encoding/json` writes it with HTML escaping on:
quote and backslash are backslash-escaped, control bytes are written as short escapes
or as a four-digit hexadecimal escape, as are the three HTML-sensitive bytes; every
other byte is copied. -/
def escapeByte (b : Nat) : GoString :=
  if b = 34 then [92, 34]
  else if b = 92 then [92, 92]
  else if b = 8 then [92, 98]
  else if b = 12 then [92, 102]
  else if b = 10 then [92, 110]
  else if b = 13 then [92, 114]
  else if b = 9 then [92, 116]
  else if b < 32 ∨ b = 60 ∨ b = 62 ∨ b = 38 then
    [92, 117, 48, 48, hexDigit (b / 16), hexDigit (b % 16)]
  else [b]

/-- A JSON string literal. -/
def marshalString (s : GoString) : GoString :=
  34 :: (s.flatMap escapeByte ++ [34])

/-- Byte-wise lexicographic order on strings, the order `encoding/json` sorts map
keys by. -/
def strLe : GoString → GoString → Bool
  | [], _ => true
  | _ :: _, [] => false
  | a :: as, b :: bs => if a < b then true else if b < a then false else strLe as bs

/-- Insertion of one binding into a key-sorted list. -/
def insertByKey (kv : GoString × GoString) : PatchOp → PatchOp
  | [] => [kv]
  | kv' :: rest => if strLe kv.1 kv'.1 then kv :: kv' :: rest else kv' :: insertByKey kv rest

/-- The bindings of a map in key order. -/
def sortByKey : PatchOp → PatchOp
  | [] => []
  | kv :: rest => insertByKey kv (sortByKey rest)

/-- Elements separated by commas. -/
def joinComma : List GoString → GoString
  | [] => []
  | [x] => x
  | x :: y :: rest => x ++ 44 :: joinComma (y :: rest)

/-- A JSON object for one patch operation, keys sorted. -/
def marshalPatchOp (p : PatchOp) : GoString :=
  123 :: (joinComma ((sortByKey p).map fun kv => marshalString kv.1 ++ 58 :: marshalString kv.2)
    ++ [125])

/-- The call `json.Marshal(patches)` of line 92: a JSON array without whitespace (a
nil slice encodes as `null`). Maps from strings to strings have no failing case, so
the result is always `.ok`. -/
def marshalPatches (patches : List PatchOp) : Except GoString GoString :=
  match patches with
  | [] => .ok (lit "null")
  | _ => .ok (91 :: (joinComma (patches.map marshalPatchOp) ++ [93]))

/-! ## Metrics -/

/-- Label values `(pod_mutation_name, namespace, pod)` of one counter bucket. -/
abbrev Labels := GoString × GoString × GoString

/-- The two counter vectors `successCounter` and `failureCounter`. -/
structure Metrics where
  success : Labels → Nat
  failure : Labels → Nat

/-- The call `WithLabelValues(l).Inc()` on one counter vector. -/
def inc (c : Labels → Nat) (l : Labels) : Labels → Nat :=
  fun k => if k = l then c k + 1 else c k

/-- The value `init` gives `podMutationName` from `os.Getenv("POD_NAME")` (the empty
string when the variable is unset). -/
def initPodMutationName (podName : GoString) : GoString :=
  if podName = [] then lit "unknown" else podName

/-! ## The handler -/

/-- The library calls made on caller-supplied bytes, with the two facts about
`encoding/json` the handler relies on. -/
structure Codec where
  /-- The call `json.NewDecoder(r.Body).Decode(&admissionReview)` of line 49. -/
  decodeReview : GoString → Except GoString AdmissionReview
  /-- The call `json.Unmarshal(pod, &podObject)` of line 60; `.error` carries
  `err.Error()`. -/
  unmarshalPod : GoString → Except GoString JsonMap
  /-- The call `json.Marshal(admissionReview)` of line 113. -/
  marshalReview : AdmissionReview → Except GoString GoString
  /-- The text of an `encoding/json` decode error is never empty. -/
  unmarshal_message : ∀ raw e, unmarshalPod raw = .error e → e ≠ []
  /-- An envelope that was decoded from JSON encodes again, whatever response the
  handler has stored in it (strings, a boolean and a byte slice). -/
  marshal_decoded : ∀ body review resp, decodeReview body = .ok review →
    ∃ bytes, marshalReview { review with Response := some resp } = .ok bytes

/-- What the handler wrote to the `http.ResponseWriter`. -/
inductive Reply where
  /-- The call `http.Error(w, msg, code)`. -/
  | error (msg : GoString) (code : Nat)
  /-- Header `Content-Type: application/json` and `w.Write(respBytes)` (status 200):
  the envelope that was encoded and its bytes. -/
  | json (review : AdmissionReview) (respBytes : GoString)

/-- HTTP status code of a reply. -/
def Reply.status : Reply → Nat
  | .error _ code => code
  | .json _ _ => 200

/-- The admission response carried by a reply, if it carries one. -/
def Reply.response : Reply → Option AdmissionResponse
  | .error _ _ => none
  | .json review _ => review.Response

/-- Variables of the loop of lines 69-89: the patch list and the lines printed by
`log.Printf`. -/
structure LoopState where
  patches : List PatchOp
  log : List GoString

/-- The line `fmt.Sprintf("invalid CPU format: %s %s/%s", cpu, name, namespace)`. -/
def invalidCPULine (cpu : GoString) (req : AdmissionRequest) : GoString :=
  lit "invalid CPU format: " ++ cpu ++ lit " " ++ req.Name ++ lit "/" ++ req.Namespace

/-- One iteration of the loop of lines 69-89 on the container at index `i`; `none`
is a panic (failed type assertion, or `cpu[:len(cpu)-1]` on the empty string). -/
def loopBody (req : AdmissionRequest) (i : Nat) (container : Json) (st : LoopState) :
    Option LoopState :=
  match container with
  | .obj containerMap =>
    if nameIsNot containerMap (lit "istio-proxy") then
      match mapGet (lit "resources") containerMap with
      | some (.obj resources) =>
        match mapGet (lit "requests") resources with
        | some (.obj requests) =>
          match mapGet (lit "cpu") requests with
          | some (.str cpu) =>
            if cpu = [] then none
            else
              match Atoi cpu.dropLast with
              | none => some { st with log := st.log ++ [invalidCPULine cpu req] }
              | some cpuInt =>
                if cpuInt > 100 then some { st with patches := st.patches ++ [mkPatch i] }
                else some st
          | _ => none
        | _ => none
      | _ => none
    else some st
  | _ => none

/-- The loop `for i, container := range containers`, from index `i` on. -/
def rangeLoop (req : AdmissionRequest) : Nat → List Json → LoopState → Option LoopState
  | _, [], st => some st
  | i, container :: rest, st =>
    match loopBody req i container st with
    | none => none
    | some st' => rangeLoop req (i + 1) rest st'

/-- Lines 67-89 of `mutateHandler`: the patch synthesis on a decoded pod. -/
def synthesize (req : AdmissionRequest) (podObject : JsonMap) : Option LoopState :=
  match mapGet (lit "spec") podObject with
  | some (.obj spec) =>
    match mapGet (lit "containers") spec with
    | some (.arr containers) => rangeLoop req 0 containers { patches := [], log := [] }
    | _ => none
  | _ => none

/-- What one call of the handler did: the counters and the log after it, and the
reply. -/
structure Served where
  metrics : Metrics
  log : List GoString
  reply : Reply

/-- Lines 112-119 of `mutateHandler`: store the response in the envelope, encode and
write it. -/
def writeReview (codec : Codec) (review : AdmissionReview)
    (admissionResponse : AdmissionResponse) (m : Metrics) (log : List GoString) : Served :=
  match codec.marshalReview { review with Response := some admissionResponse } with
  | .error _ =>
    { metrics := m, log := log, reply := .error (lit "could not encode response") 500 }
  | .ok respBytes =>
    { metrics := m, log := log,
      reply := .json { review with Response := some admissionResponse } respBytes }

/-- The function `mutateHandler` of main.go on request body `body`, with counters `m`
before the call; `none` is a panic of the handler (nothing written, no counter
touched: every increment comes after the last panicking statement). -/
def mutateHandler (codec : Codec) (podMutationName : GoString) (m : Metrics)
    (body : GoString) : Option Served :=
  match codec.decodeReview body with
  | .error _ =>
    some { metrics := m, log := [], reply := .error (lit "could not decode request") 400 }
  | .ok admissionReview =>
    match admissionReview.Request with
    | none => none
    | some req =>
      let labels : Labels := (podMutationName, req.Namespace, req.Name)
      let admissionResponse : AdmissionResponse :=
        { UID := req.UID, Allowed := false, Result := none, Patch := none, PatchType := none }
      match codec.unmarshalPod req.Object.Raw with
      | .error err =>
        some (writeReview codec admissionReview
          { admissionResponse with Allowed := false, Result := some { Message := err } }
          { m with failure := inc m.failure labels } [])
      | .ok podObject =>
        match synthesize req podObject with
        | none => none
        | some st =>
          if st.patches.length > 0 then
            match marshalPatches st.patches with
            | .error err =>
              some (writeReview codec admissionReview
                { admissionResponse with Allowed := false, Result := some { Message := err } }
                { m with failure := inc m.failure labels } st.log)
            | .ok patchBytes =>
              some (writeReview codec admissionReview
                { admissionResponse with
                    Allowed := true, Patch := some patchBytes,
                    PatchType := some PatchType.JSONPatch }
                { m with success := inc m.success labels } st.log)
          else
            some (writeReview codec admissionReview
              { admissionResponse with Allowed := true }
              { m with success := inc m.success labels } st.log)

/-! ## Vocabulary of the statements -/

/-- The sequence `spec.containers` of a decoded pod, when the pod has one. -/
def containersOf (podObject : JsonMap) : Option (List Json) :=
  match mapGet (lit "spec") podObject with
  | some (.obj spec) =>
    match mapGet (lit "containers") spec with
    | some (.arr containers) => some containers
    | _ => none
  | _ => none

/-- Container `c` is an object whose `name` is the string `s`. -/
def isNamed (c : Json) (s : GoString) : Bool :=
  match c with
  | .obj containerMap => !nameIsNot containerMap s
  | _ => false

/-- The string at `resources.requests.cpu` of container `c`, when the container is an
object that has one. -/
def cpuRequest (c : Json) : Option GoString :=
  match c with
  | .obj containerMap =>
    match mapGet (lit "resources") containerMap with
    | some (.obj resources) =>
      match mapGet (lit "requests") resources with
      | some (.obj requests) =>
        match mapGet (lit "cpu") requests with
        | some (.str cpu) => some cpu
        | _ => none
      | _ => none
    | _ => none
  | _ => none

/-- Container `c` is not named `istio-proxy` and the numeric part of its CPU request
(the string without its last byte) parses to an integer above 100. -/
def overLimit (c : Json) : Bool :=
  !isNamed c (lit "istio-proxy") &&
    match cpuRequest c with
    | some cpu =>
      match Atoi cpu.dropLast with
      | some n => decide (100 < n)
      | none => false
    | none => false

/-- Positions, counted from `i`, of the containers of `cs` that are over the limit. -/
def clampIdx : Nat → List Json → List Nat
  | _, [] => []
  | i, c :: cs => if overLimit c then i :: clampIdx (i + 1) cs else clampIdx (i + 1) cs

/-- Value of a digit string read in base 10. -/
def decimalValue (ds : GoString) : Nat :=
  ds.foldl (fun n ch => n * 10 + (ch - 48)) 0

/-- Every byte of `ds` is an ASCII decimal digit. -/
def allDigits (ds : GoString) : Bool :=
  ds.all fun ch => decide (48 ≤ ch ∧ ch ≤ 57)

/-- Value of a least-significant-first digit list. -/
def valRev : GoString → Nat
  | [] => 0
  | d :: ds => (d - 48) + 10 * valRev ds

/-- `m[k] = v`: the binding of `k` replaced where the map has one, added otherwise. -/
def mapSet (k : GoString) (v : Json) : JsonMap → JsonMap
  | [] => [(k, v)]
  | (k', v') :: rest => if k' = k then (k, v) :: rest else (k', v') :: mapSet k v rest

/-- The operation `replace` at `resources/requests/cpu` with value `"100m"`, applied to
the map of one container (no effect where the target does not exist). -/
def setCpuMap (containerMap : JsonMap) : JsonMap :=
  match mapGet (lit "resources") containerMap with
  | some (.obj resources) =>
    match mapGet (lit "requests") resources with
    | some (.obj requests) =>
      match mapGet (lit "cpu") requests with
      | some _ =>
        mapSet (lit "resources")
          (.obj (mapSet (lit "requests")
            (.obj (mapSet (lit "cpu") (.str (lit "100m")) requests)) resources))
          containerMap
      | none => containerMap
    | _ => containerMap
  | _ => containerMap

/-- The same operation on a container. -/
def setCpu : Json → Json
  | .obj containerMap => .obj (setCpuMap containerMap)
  | c => c

/-- Some operation of `patches` has the CPU path of container `i`. -/
def targets (patches : List PatchOp) (i : Nat) : Bool :=
  patches.any fun p => decide (p.field (lit "path") = some (cpuPath i))

/-- The containers of `cs`, at positions `i`, `i + 1`, ..., after the patch list. -/
def patchContainers (patches : List PatchOp) : Nat → List Json → List Json
  | _, [] => []
  | i, c :: cs =>
    (if targets patches i then setCpu c else c) :: patchContainers patches (i + 1) cs

/-- The pod after the patch list: `resources.requests.cpu` of every container at an
index named in `patches` set to `"100m"`, everything else unchanged. -/
def applyPatches (patches : List PatchOp) (podObject : JsonMap) : JsonMap :=
  match mapGet (lit "spec") podObject with
  | some (.obj spec) =>
    match mapGet (lit "containers") spec with
    | some (.arr containers) =>
      mapSet (lit "spec")
        (.obj (mapSet (lit "containers") (.arr (patchContainers patches 0 containers)) spec))
        podObject
    | _ => podObject
  | _ => podObject

end PodMutation

namespace PodMutation

/-! ## Example data, in the shape of the pods of main_test.go -/

/-- A container with a name and a CPU request. -/
def exampleContainer (name cpu : String) : Json :=
  .obj [(lit "name", .str (lit name)),
    (lit "resources", .obj [(lit "requests", .obj [(lit "cpu", .str (lit cpu))])])]

/-- A pod with the given containers. -/
def examplePod (containers : List Json) : JsonMap :=
  [(lit "apiVersion", .str (lit "v1")), (lit "kind", .str (lit "Pod")),
    (lit "metadata", .obj [(lit "name", .str (lit "test-pod")),
      (lit "namespace", .str (lit "default"))]),
    (lit "spec", .obj [(lit "containers", .arr containers)])]

/-- The admission request of main_test.go around pod bytes `raw`. -/
def exampleRequest (raw : GoString) : AdmissionRequest :=
  { UID := lit "12345", Name := lit "test-pod", Namespace := lit "default",
    Object := { Raw := raw } }

/-- A rendering of the envelope that shows the uid and the verdict of its response,
used as the encoder of `exampleCodec`. -/
def exampleEncoding (review : AdmissionReview) : GoString :=
  match review.Response with
  | none => lit "\x7b\x7d"
  | some resp =>
    lit "\x7b\"response\":\x7b\"uid\":" ++ marshalString resp.UID ++ lit ",\"allowed\":"
      ++ (if resp.Allowed then lit "true" else lit "false") ++ lit "\x7d\x7d"

/-- A table-driven stand-in for `encoding/json` on one exchange: request body `body`
decodes to `review` and pod bytes `raw` decode to `podObject`; every other input is
rejected. -/
def exampleCodec (body : GoString) (review : AdmissionReview) (raw : GoString)
    (podObject : JsonMap) : Codec where
  decodeReview := fun b => if b = body then .ok review else .error (lit "EOF")
  unmarshalPod := fun b =>
    if b = raw then .ok podObject else .error (lit "unexpected end of JSON input")
  marshalReview := fun r => .ok (exampleEncoding r)
  unmarshal_message := by
    intro b e h
    by_cases hb : b = raw
    · simp [hb] at h
    · simp only [hb, if_false, Except.error.injEq] at h
      rw [← h]
      decide
  marshal_decoded := fun _ _ _ _ => ⟨_, rfl⟩

/-- The same stand-in for two exchanges: bodies `body` and `body2` decode to `review`
and `review2`, pod bytes `raw` and `raw2` decode to `podObject` and `podObject2`. -/
def exampleCodec2 (body : GoString) (review : AdmissionReview) (raw : GoString)
    (podObject : JsonMap) (body2 : GoString) (review2 : AdmissionReview) (raw2 : GoString)
    (podObject2 : JsonMap) : Codec where
  decodeReview := fun b =>
    if b = body then .ok review else if b = body2 then .ok review2 else .error (lit "EOF")
  unmarshalPod := fun b =>
    if b = raw then .ok podObject else if b = raw2 then .ok podObject2
    else .error (lit "unexpected end of JSON input")
  marshalReview := fun r => .ok (exampleEncoding r)
  unmarshal_message := by
    intro b e h
    by_cases hb : b = raw
    · simp [hb] at h
    · by_cases hb2 : b = raw2
      · dsimp only at h
        rw [if_neg hb, if_pos hb2] at h
        cases h
      · simp only [hb, hb2, if_false, Except.error.injEq] at h
        rw [← h]
        decide
  marshal_decoded := fun _ _ _ _ => ⟨_, rfl⟩

/-- The envelope of main_test.go around pod bytes `raw`. -/
def exampleReview (raw : GoString) : AdmissionReview :=
  { Kind := [], APIVersion := [], Request := some (exampleRequest raw), Response := none }

/-- Counters before the first request. -/
def zeroMetrics : Metrics := { success := fun _ => 0, failure := fun _ => 0 }

/-- The patch bytes main_test.go expects for a single clamped container. -/
def expectedPatch : GoString :=
  lit "[\x7b\"op\":\"replace\",\"path\":\"/spec/containers/0/resources/requests/cpu\",\"value\":\"100m\"\x7d]"

/-- A container that has a name and nothing else. -/
def bareContainer (name : String) : Json :=
  .obj [(lit "name", .str (lit name))]

/-- A pod object without `spec`. -/
def specLessPod : JsonMap :=
  [(lit "apiVersion", .str (lit "v1")), (lit "kind", .str (lit "Pod"))]

/-- Containers `a: 50m, b: 150m, c: 100m, d: 101m`. -/
def mixedContainers : List Json :=
  [exampleContainer "a" "50m", exampleContainer "b" "150m", exampleContainer "c" "100m",
    exampleContainer "d" "101m"]

/-- Containers `istio-proxy: 500m, app: 300m`. -/
def sidecarContainers : List Json :=
  [exampleContainer "istio-proxy" "500m", exampleContainer "app" "300m"]

end PodMutation

/-! ## Decimal text and paths -/

namespace PodMutation

theorem valRev_digitsRev (fuel n : Nat) (h : n < fuel) : valRev (digitsRev fuel n) = n := by
  induction fuel generalizing n with
  | zero => omega
  | succ f ih =>
    unfold digitsRev
    split
    · simp [valRev]
    · simp only [valRev]
      rw [ih (n / 10) (by omega)]
      omega

theorem Itoa_injective {i j : Nat} (h : Itoa i = Itoa j) : i = j := by
  unfold Itoa at h
  have h2 := List.reverse_injective h
  have := congrArg valRev h2
  rwa [valRev_digitsRev _ _ (by omega), valRev_digitsRev _ _ (by omega)] at this

theorem digitsRev_digit (fuel n : Nat) : ∀ d ∈ digitsRev fuel n, 48 ≤ d ∧ d ≤ 57 := by
  induction fuel generalizing n with
  | zero => intro d hd; simp [digitsRev] at hd
  | succ f ih =>
    intro d hd
    unfold digitsRev at hd
    split at hd
    · simp at hd; omega
    · simp only [List.mem_cons] at hd
      rcases hd with rfl | hd
      · omega
      · exact ih _ d hd

theorem Itoa_digit (n : Nat) : ∀ d ∈ Itoa n, 48 ≤ d ∧ d ≤ 57 := by
  intro d hd
  unfold Itoa at hd
  exact digitsRev_digit _ _ d (List.mem_reverse.mp hd)

theorem cpuPath_injective {i j : Nat} (h : cpuPath i = cpuPath j) : i = j := by
  unfold cpuPath at h
  rw [List.append_assoc, List.append_assoc] at h
  exact Itoa_injective (List.append_cancel_right (List.append_cancel_left h))

theorem sep_unique (a b x y : GoString) (ha : ∀ d ∈ a, d ≠ 47) (hb : ∀ d ∈ b, d ≠ 47)
    (h : a ++ 47 :: x = b ++ 47 :: y) : a = b := by
  induction a generalizing b with
  | nil =>
    cases b with
    | nil => rfl
    | cons c b =>
      simp at h
      exact absurd h.1.symm (hb c (by simp))
  | cons c a ih =>
    cases b with
    | nil =>
      simp at h
      exact absurd h.1 (ha c (by simp))
    | cons e b =>
      simp at h
      rw [h.1, ih b (fun d hd => ha d (by simp [hd])) (fun d hd => hb d (by simp [hd])) h.2]

theorem field_path_mkPatch (k : Nat) : (mkPatch k).field (lit "path") = some (cpuPath k) := rfl
theorem field_op_mkPatch (k : Nat) : (mkPatch k).field (lit "op") = some (lit "replace") := rfl
theorem field_value_mkPatch (k : Nat) : (mkPatch k).field (lit "value") = some (lit "100m") := rfl

end PodMutation

/-! ## One iteration of the loop -/

namespace PodMutation

theorem loopBody_sidecar (req : AdmissionRequest) (i : Nat) (c : Json) (st : LoopState)
    (h : isNamed c (lit "istio-proxy") = true) : loopBody req i c st = some st := by
  cases c <;> simp [isNamed] at h
  simp [loopBody, h]

theorem loopBody_cpu (req : AdmissionRequest) (i : Nat) (c : Json) (st : LoopState)
    (cpu : GoString) (h : isNamed c (lit "istio-proxy") = false)
    (hcpu : cpuRequest c = some cpu) (hne : cpu ≠ []) :
    loopBody req i c st = some
      (match Atoi cpu.dropLast with
       | none => { st with log := st.log ++ [invalidCPULine cpu req] }
       | some n => if n > 100 then { st with patches := st.patches ++ [mkPatch i] } else st) := by
  cases c <;> simp [cpuRequest] at hcpu
  rename_i m
  simp [isNamed] at h
  unfold loopBody
  simp only [h, if_true]
  split at hcpu <;> try contradiction
  split at hcpu <;> try contradiction
  split at hcpu <;> try contradiction
  rename_i h1 _ _ h2 _ _ h3
  simp at hcpu
  subst hcpu
  simp only [h1, h2, h3, hne, if_false]
  cases Atoi (List.dropLast _) <;> simp
  split <;> rfl

theorem loopBody_some (req : AdmissionRequest) (i : Nat) (c : Json) (st st' : LoopState)
    (h : loopBody req i c st = some st') :
    isNamed c (lit "istio-proxy") = true ∨
      (isNamed c (lit "istio-proxy") = false ∧ ∃ cpu, cpuRequest c = some cpu ∧ cpu ≠ []) := by
  cases c <;> simp [loopBody] at h
  rename_i m
  by_cases hn : nameIsNot m (lit "istio-proxy") = true
  · right
    simp only [hn, if_true] at h
    refine ⟨by simp [isNamed, hn], ?_⟩
    split at h <;> try contradiction
    split at h <;> try contradiction
    split at h <;> try contradiction
    rename_i h1 _ _ h2 _ cpu h3
    refine ⟨cpu, by simp [cpuRequest, h1, h2, h3], ?_⟩
    intro hc
    simp [hc] at h
  · left
    simp at hn
    simp [isNamed, hn]

end PodMutation

/-! ## The whole loop -/

namespace PodMutation

theorem overLimit_of_sidecar (c : Json) (h : isNamed c (lit "istio-proxy") = true) :
    overLimit c = false := by
  simp [overLimit, h]

theorem loopBody_patches (req : AdmissionRequest) (i : Nat) (c : Json) (st st' : LoopState)
    (h : loopBody req i c st = some st') :
    st'.patches = st.patches ++ (if overLimit c then [mkPatch i] else []) := by
  rcases loopBody_some req i c st st' h with hn | ⟨hn, cpu, hcpu, hne⟩
  · rw [loopBody_sidecar req i c st hn] at h
    simp at h
    simp [overLimit_of_sidecar c hn, ← h]
  · rw [loopBody_cpu req i c st cpu hn hcpu hne] at h
    simp at h
    subst h
    simp only [overLimit, hn, hcpu]
    cases hA : Atoi cpu.dropLast with
    | none => simp
    | some n =>
      by_cases hgt : 100 < n
      · simp [hgt]
      · simp [hgt]

theorem loopBody_transfer (req req' : AdmissionRequest) (i j : Nat) (c : Json)
    (st st' st2 : LoopState) (h : loopBody req i c st = some st') :
    ∃ st2', loopBody req' j c st2 = some st2' := by
  rcases loopBody_some req i c st st' h with hn | ⟨hn, cpu, hcpu, hne⟩
  · exact ⟨_, loopBody_sidecar req' j c st2 hn⟩
  · exact ⟨_, loopBody_cpu req' j c st2 cpu hn hcpu hne⟩

theorem rangeLoop_patches (req : AdmissionRequest) (cs : List Json) :
    ∀ (i : Nat) (st st' : LoopState), rangeLoop req i cs st = some st' →
      st'.patches = st.patches ++ (clampIdx i cs).map mkPatch := by
  induction cs with
  | nil =>
    intro i st st' h
    simp [rangeLoop] at h
    simp [clampIdx, h]
  | cons c cs ih =>
    intro i st st' h
    unfold rangeLoop at h
    cases hb : loopBody req i c st with
    | none => simp [hb] at h
    | some s1 =>
      simp only [hb] at h
      rw [ih (i + 1) s1 st' h, loopBody_patches req i c st s1 hb]
      by_cases ho : overLimit c = true
      · simp [clampIdx, ho]
      · simp [clampIdx, ho]

theorem rangeLoop_complete (req : AdmissionRequest) (cs : List Json)
    (hshape : ∀ c ∈ cs, isNamed c (lit "istio-proxy") = true ∨
      ∃ cpu, cpuRequest c = some cpu ∧ cpu ≠ []) :
    ∀ (i : Nat) (st : LoopState), ∃ st', rangeLoop req i cs st = some st' := by
  induction cs with
  | nil => intro i st; exact ⟨st, rfl⟩
  | cons c cs ih =>
    intro i st
    have hc := hshape c (by simp)
    have hb : ∃ s1, loopBody req i c st = some s1 := by
      by_cases hn : isNamed c (lit "istio-proxy") = true
      · exact ⟨_, loopBody_sidecar req i c st hn⟩
      · rcases hc with hc | ⟨cpu, hcpu, hne⟩
        · exact absurd hc hn
        · exact ⟨_, loopBody_cpu req i c st cpu (by simpa using hn) hcpu hne⟩
    obtain ⟨s1, hs1⟩ := hb
    obtain ⟨st', hst'⟩ := ih (fun c hc => hshape c (by simp [hc])) (i + 1) s1
    exact ⟨st', by simp [rangeLoop, hs1, hst']⟩

theorem mem_clampIdx (cs : List Json) : ∀ (i k : Nat),
    k ∈ clampIdx i cs ↔ i ≤ k ∧ ∃ c, cs[k - i]? = some c ∧ overLimit c = true := by
  induction cs with
  | nil => intro i k; simp [clampIdx]
  | cons c cs ih =>
    intro i k
    unfold clampIdx
    by_cases hk : k = i
    · subst hk
      have hnot : k ∉ clampIdx (k + 1) cs := by
        rw [ih]; omega
      by_cases ho : overLimit c = true
      · simp [ho]
      · simp [ho, hnot]
    · have key : k ∈ clampIdx (i + 1) cs ↔
          i ≤ k ∧ ∃ c', (c :: cs)[k - i]? = some c' ∧ overLimit c' = true := by
        rw [ih]
        constructor
        · rintro ⟨hle, c', hc', ho⟩
          refine ⟨by omega, c', ?_, ho⟩
          have : k - i = (k - (i + 1)) + 1 := by omega
          rw [this, List.getElem?_cons_succ]
          exact hc'
        · rintro ⟨hle, c', hc', ho⟩
          have hlt : i + 1 ≤ k := by omega
          refine ⟨hlt, c', ?_, ho⟩
          have : k - i = (k - (i + 1)) + 1 := by omega
          rw [this, List.getElem?_cons_succ] at hc'
          exact hc'
      by_cases ho : overLimit c = true
      · simp [ho, hk, key]
      · simp [ho, key]

theorem clampIdx_sorted (cs : List Json) : ∀ i : Nat, (clampIdx i cs).Pairwise (· < ·) := by
  induction cs with
  | nil => intro i; simp [clampIdx]
  | cons c cs ih =>
    intro i
    unfold clampIdx
    split
    · refine List.Pairwise.cons ?_ (ih (i + 1))
      intro k hk
      have := (mem_clampIdx cs (i + 1) k).mp hk
      omega
    · exact ih (i + 1)

theorem clampIdx_nodup (cs : List Json) (i : Nat) : (clampIdx i cs).Nodup :=
  (clampIdx_sorted cs i).imp (fun h => Nat.ne_of_lt h)

end PodMutation

/-! ## The synthesis as a whole -/

namespace PodMutation

theorem synthesize_eq (req : AdmissionRequest) (podObject : JsonMap) (cs : List Json)
    (hcs : containersOf podObject = some cs) :
    synthesize req podObject = rangeLoop req 0 cs { patches := [], log := [] } := by
  unfold containersOf at hcs
  unfold synthesize
  split at hcs <;> try contradiction
  rename_i h1
  split at hcs <;> try contradiction
  rename_i h2
  simp at hcs
  subst hcs
  simp [h1, h2]

theorem synthesize_some (req : AdmissionRequest) (podObject : JsonMap) (st : LoopState)
    (h : synthesize req podObject = some st) : ∃ cs, containersOf podObject = some cs := by
  unfold synthesize at h
  unfold containersOf
  split at h <;> try contradiction
  rename_i h1
  split at h <;> try contradiction
  rename_i h2
  simp [h2]

theorem synthesize_patches (req : AdmissionRequest) (podObject : JsonMap) (cs : List Json)
    (st : LoopState) (hcs : containersOf podObject = some cs)
    (h : synthesize req podObject = some st) : st.patches = (clampIdx 0 cs).map mkPatch := by
  rw [synthesize_eq req podObject cs hcs] at h
  simpa using rangeLoop_patches req cs 0 _ st h

theorem countP_path (idx : List Nat) (i : Nat) :
    (idx.map mkPatch).countP (fun p => decide (p.field (lit "path") = some (cpuPath i)))
      = idx.count i := by
  induction idx with
  | nil => rfl
  | cons k idx ih =>
    simp only [List.map_cons, List.countP_cons, List.count_cons, ih, field_path_mkPatch]
    by_cases hk : k = i
    · simp [hk]
    · have : cpuPath k ≠ cpuPath i := fun h => hk (cpuPath_injective h)
      simp [hk, this]

theorem overLimit_intro (c : Json) (cpu : GoString) (n : Int)
    (hname : isNamed c (lit "istio-proxy") = false) (hcpu : cpuRequest c = some cpu)
    (hn : Atoi cpu.dropLast = some n) : overLimit c = decide (100 < n) := by
  simp [overLimit, hname, hcpu, hn]

theorem overLimit_elim (c : Json) (h : overLimit c = true) :
    isNamed c (lit "istio-proxy") = false ∧
      ∃ cpu n, cpuRequest c = some cpu ∧ Atoi cpu.dropLast = some n ∧ 100 < n := by
  unfold overLimit at h
  simp only [Bool.and_eq_true, Bool.not_eq_true'] at h
  refine ⟨h.1, ?_⟩
  have h2 := h.2
  split at h2 <;> try contradiction
  rename_i cpu hcpu
  split at h2 <;> try contradiction
  rename_i n hn
  exact ⟨cpu, n, hcpu, hn, by simpa using h2⟩

end PodMutation

/-! ## Claims about the patch list -/

namespace PodMutation

/-- C1. Clamp rule. On a pod whose synthesis returns patch list `st.patches`, take a
container at index `i` that is not named istio-proxy and whose CPU string without its
last byte parses to `n`. When `n > 100` exactly one operation of the list has the path
`/spec/containers/i/resources/requests/cpu`, and every operation with that path has
op `replace` and value `100m`; when `n ≤ 100` no operation has that path. -/
theorem clamp_rule (req : AdmissionRequest) (podObject : JsonMap) (containers : List Json)
    (st : LoopState) (i : Nat) (c : Json) (cpu : GoString) (n : Int)
    (hcs : containersOf podObject = some containers)
    (hsyn : synthesize req podObject = some st)
    (hc : containers[i]? = some c)
    (hname : isNamed c (lit "istio-proxy") = false)
    (hcpu : cpuRequest c = some cpu)
    (hn : Atoi cpu.dropLast = some n) :
    (100 < n →
      st.patches.countP (fun p => decide (p.field (lit "path") = some (cpuPath i))) = 1 ∧
      ∀ p ∈ st.patches, p.field (lit "path") = some (cpuPath i) →
        p.field (lit "op") = some (lit "replace") ∧
        p.field (lit "value") = some (lit "100m")) ∧
    (n ≤ 100 → ∀ p ∈ st.patches, p.field (lit "path") ≠ some (cpuPath i)) := by
  have hp := synthesize_patches req podObject containers st hcs hsyn
  have ho := overLimit_intro c cpu n hname hcpu hn
  have hmem : i ∈ clampIdx 0 containers ↔ overLimit c = true := by
    rw [mem_clampIdx]
    simp [hc]
  constructor
  · intro hgt
    have hi : i ∈ clampIdx 0 containers := hmem.mpr (by simp [ho, hgt])
    refine ⟨?_, ?_⟩
    · rw [hp, countP_path]
      exact List.count_eq_one_of_mem (clampIdx_nodup containers 0) hi
    · intro p hpm _
      rw [hp, List.mem_map] at hpm
      obtain ⟨k, _, rfl⟩ := hpm
      exact ⟨field_op_mkPatch k, field_value_mkPatch k⟩
  · intro hle p hpm hpath
    rw [hp, List.mem_map] at hpm
    obtain ⟨k, hk, rfl⟩ := hpm
    rw [field_path_mkPatch] at hpath
    have hki : k = i := cpuPath_injective (Option.some.inj hpath)
    subst hki
    have := hmem.mp hk
    rw [ho] at this
    have : 100 < n := by simpa using this
    omega

/-- C1, on the pod with containers a: 50m, b: 150m, c: 100m, d: 101m, at index 1. -/
theorem clamp_rule_witness :
    ((100 : Int) < 150 →
      [mkPatch 1, mkPatch 3].countP
          (fun p => decide (p.field (lit "path") = some (cpuPath 1))) = 1 ∧
      ∀ p ∈ [mkPatch 1, mkPatch 3], p.field (lit "path") = some (cpuPath 1) →
        p.field (lit "op") = some (lit "replace") ∧
        p.field (lit "value") = some (lit "100m")) ∧
    ((150 : Int) ≤ 100 →
      ∀ p ∈ [mkPatch 1, mkPatch 3], p.field (lit "path") ≠ some (cpuPath 1)) :=
  clamp_rule (exampleRequest []) (examplePod mixedContainers) mixedContainers
    { patches := [mkPatch 1, mkPatch 3], log := [] } 1 (exampleContainer "b" "150m")
    (lit "150m") 150 rfl rfl rfl rfl rfl rfl

/-- C2. Sidecar exemption. On a pod whose synthesis returns patch list `st.patches`, no
operation of the list has a path that starts with `/spec/containers/i/` for a container
`i` named istio-proxy, whatever else that container holds. -/
theorem sidecar_exempt (req : AdmissionRequest) (podObject : JsonMap)
    (containers : List Json) (st : LoopState) (i : Nat) (c : Json)
    (hcs : containersOf podObject = some containers)
    (hsyn : synthesize req podObject = some st)
    (hc : containers[i]? = some c)
    (hname : isNamed c (lit "istio-proxy") = true) :
    ∀ p ∈ st.patches, ∀ path, p.field (lit "path") = some path →
      ¬ (lit "/spec/containers/" ++ Itoa i ++ lit "/") <+: path := by
  intro p hpm path hpath hpre
  rw [synthesize_patches req podObject containers st hcs hsyn, List.mem_map] at hpm
  obtain ⟨k, hk, rfl⟩ := hpm
  rw [field_path_mkPatch] at hpath
  have hpk : path = cpuPath k := (Option.some.inj hpath).symm
  subst hpk
  obtain ⟨t, ht⟩ := hpre
  unfold cpuPath at ht
  have e1 : lit "/" = [47] := rfl
  have e2 : lit "/resources/requests/cpu" = 47 :: lit "resources/requests/cpu" := rfl
  rw [e1, e2, List.append_assoc, List.append_assoc, List.append_assoc] at ht
  have ht2 := List.append_cancel_left ht
  have hik : Itoa i = Itoa k :=
    sep_unique _ _ _ _ (fun d hd => by have := Itoa_digit i d hd; omega)
      (fun d hd => by have := Itoa_digit k d hd; omega) (by simpa using ht2)
  have hik2 := Itoa_injective hik
  subst hik2
  have hov := (mem_clampIdx containers 0 i).mp hk
  simp [hc] at hov
  rw [overLimit_of_sidecar c hname] at hov
  contradiction

/-- C2, on the pod with containers istio-proxy: 500m, app: 300m, at index 0. -/
theorem sidecar_exempt_witness :
    isNamed (exampleContainer "istio-proxy" "500m") (lit "istio-proxy") = true ∧
    ∀ p ∈ [mkPatch 1], ∀ path, p.field (lit "path") = some path →
      ¬ (lit "/spec/containers/" ++ Itoa 0 ++ lit "/") <+: path :=
  ⟨rfl, sidecar_exempt (exampleRequest []) (examplePod sidecarContainers) sidecarContainers
    { patches := [mkPatch 1], log := [] } 0 (exampleContainer "istio-proxy" "500m")
    rfl rfl rfl rfl⟩

/-- C3. Patch order and indexing. On a pod whose synthesis returns patch list
`st.patches`, the list is the sequence of operations `mkPatch k` for a strictly
increasing sequence of indices `k`, each of them the position in `spec.containers` of a
container that is not named istio-proxy and whose CPU number parsed above 100. -/
theorem patch_order (req : AdmissionRequest) (podObject : JsonMap) (containers : List Json)
    (st : LoopState)
    (hcs : containersOf podObject = some containers)
    (hsyn : synthesize req podObject = some st) :
    ∃ idx : List Nat,
      st.patches = idx.map mkPatch ∧
      st.patches.map (PatchOp.field (lit "path")) = idx.map (fun k => some (cpuPath k)) ∧
      idx.Pairwise (· < ·) ∧
      ∀ k ∈ idx, ∃ c cpu n, containers[k]? = some c ∧
        isNamed c (lit "istio-proxy") = false ∧ cpuRequest c = some cpu ∧
        Atoi cpu.dropLast = some n ∧ 100 < n := by
  have hp := synthesize_patches req podObject containers st hcs hsyn
  refine ⟨clampIdx 0 containers, hp, ?_, clampIdx_sorted containers 0, ?_⟩
  · rw [hp, List.map_map]
    apply List.map_congr_left
    intro k _
    exact field_path_mkPatch k
  · intro k hk
    obtain ⟨_, c, hc, ho⟩ := (mem_clampIdx containers 0 k).mp hk
    obtain ⟨hname, cpu, n, hcpu, hn, hgt⟩ := overLimit_elim c ho
    exact ⟨c, cpu, n, by simpa using hc, hname, hcpu, hn, hgt⟩

/-- C3, on the pod with containers a: 50m, b: 150m, c: 100m, d: 101m. -/
theorem patch_order_witness :
    ∃ idx : List Nat,
      [mkPatch 1, mkPatch 3] = idx.map mkPatch ∧
      [mkPatch 1, mkPatch 3].map (PatchOp.field (lit "path"))
        = idx.map (fun k => some (cpuPath k)) ∧
      idx.Pairwise (· < ·) ∧
      ∀ k ∈ idx, ∃ c cpu n, mixedContainers[k]? = some c ∧
        isNamed c (lit "istio-proxy") = false ∧ cpuRequest c = some cpu ∧
        Atoi cpu.dropLast = some n ∧ 100 < n :=
  patch_order (exampleRequest []) (examplePod mixedContainers) mixedContainers
    { patches := [mkPatch 1, mkPatch 3], log := [] } rfl rfl

end PodMutation

/-! ## Resubmission of a patched pod -/

namespace PodMutation

theorem mapGet_mapSet_eq (k : GoString) (v : Json) (m : JsonMap) :
    mapGet k (mapSet k v m) = some v := by
  induction m with
  | nil => simp [mapSet, mapGet]
  | cons kv m ih =>
    obtain ⟨k', v'⟩ := kv
    unfold mapSet
    by_cases h : k' = k
    · simp [h, mapGet]
    · simp [h, mapGet, ih]

theorem mapGet_mapSet_ne (k k2 : GoString) (v : Json) (m : JsonMap) (hne : k ≠ k2) :
    mapGet k2 (mapSet k v m) = mapGet k2 m := by
  induction m with
  | nil => simp [mapSet, mapGet, hne]
  | cons kv m ih =>
    obtain ⟨k', v'⟩ := kv
    unfold mapSet
    by_cases h : k' = k
    · subst h
      simp [mapGet, hne]
    · simp only [h, if_false, mapGet, ih]

theorem mapGet_name_setCpuMap (m : JsonMap) :
    mapGet (lit "name") (setCpuMap m) = mapGet (lit "name") m := by
  unfold setCpuMap
  split <;> try rfl
  split <;> try rfl
  split <;> try rfl
  rw [mapGet_mapSet_ne _ _ _ _ (by decide)]

theorem isNamed_setCpu (c : Json) (s : GoString) : isNamed (setCpu c) s = isNamed c s := by
  cases c <;> try rfl
  simp only [setCpu, isNamed, nameIsNot, mapGet_name_setCpuMap]

theorem cpuRequest_setCpu (c : Json) (cpu : GoString) (h : cpuRequest c = some cpu) :
    cpuRequest (setCpu c) = some (lit "100m") := by
  cases c <;> simp [cpuRequest] at h
  rename_i m
  split at h <;> try contradiction
  split at h <;> try contradiction
  split at h <;> try contradiction
  rename_i h1 _ _ h2 _ _ h3
  simp only [setCpu, setCpuMap, h1, h2, h3, cpuRequest, mapGet_mapSet_eq]

theorem loopBody_setCpu (req : AdmissionRequest) (i : Nat) (c : Json) (st : LoopState)
    (h : overLimit c = true) : loopBody req i (setCpu c) st = some st := by
  obtain ⟨hname, cpu, n, hcpu, _, _⟩ := overLimit_elim c h
  rw [loopBody_cpu req i (setCpu c) st (lit "100m") (by rw [isNamed_setCpu]; exact hname)
    (cpuRequest_setCpu c cpu hcpu) (by decide)]
  rfl

theorem targets_map (idx : List Nat) (k : Nat) :
    targets (idx.map mkPatch) k = decide (k ∈ idx) := by
  induction idx with
  | nil => rfl
  | cons j idx ih =>
    have hrec : targets ((j :: idx).map mkPatch) k
        = (decide ((mkPatch j).field (lit "path") = some (cpuPath k))
            || targets (idx.map mkPatch) k) := rfl
    rw [hrec, ih, field_path_mkPatch]
    by_cases hj : j = k
    · simp [hj]
    · have : cpuPath j ≠ cpuPath k := fun h => hj (cpuPath_injective h)
      have hkj : ¬ k = j := fun h => hj h.symm
      simp [this, hkj]

theorem rangeLoop_patched (req req2 : AdmissionRequest) (P : List PatchOp) (cs : List Json) :
    ∀ (i : Nat) (st st' st2 : LoopState), rangeLoop req i cs st = some st' →
      (∀ j c, cs[j]? = some c → targets P (i + j) = overLimit c) →
      ∃ s, rangeLoop req2 i (patchContainers P i cs) st2 = some s ∧
        s.patches = st2.patches := by
  induction cs with
  | nil => intro i st st' st2 _ _; exact ⟨st2, rfl, rfl⟩
  | cons c cs ih =>
    intro i st st' st2 h ht
    unfold rangeLoop at h
    cases hb : loopBody req i c st with
    | none => simp [hb] at h
    | some s1 =>
      simp only [hb] at h
      have ht0 : targets P i = overLimit c := by simpa using ht 0 c (by simp)
      have htail : ∀ j c', cs[j]? = some c' → targets P (i + 1 + j) = overLimit c' := by
        intro j c' hj
        have := ht (j + 1) c' (by simpa using hj)
        rwa [show i + (j + 1) = i + 1 + j by omega] at this
      by_cases ho : overLimit c = true
      · obtain ⟨s, hs, hsp⟩ := ih (i + 1) s1 st' st2 h htail
        refine ⟨s, ?_, hsp⟩
        simp only [patchContainers, ht0, ho, if_true, rangeLoop,
          loopBody_setCpu req2 i c st2 ho]
        exact hs
      · obtain ⟨s2, hs2⟩ := loopBody_transfer req req2 i i c st s1 st2 hb
        have hs2p := loopBody_patches req2 i c st2 s2 hs2
        simp only [ho] at hs2p
        obtain ⟨s, hs, hsp⟩ := ih (i + 1) s1 st' s2 h htail
        refine ⟨s, ?_, by rw [hsp, hs2p]; simp⟩
        simp only [patchContainers, ht0, ho, rangeLoop, Bool.false_eq_true, if_false, hs2]
        exact hs

theorem containersOf_applyPatches (P : List PatchOp) (podObject : JsonMap) (cs : List Json)
    (hcs : containersOf podObject = some cs) :
    containersOf (applyPatches P podObject) = some (patchContainers P 0 cs) := by
  unfold containersOf at hcs
  split at hcs <;> try contradiction
  rename_i h1
  split at hcs <;> try contradiction
  rename_i h2
  simp at hcs
  subst hcs
  simp only [applyPatches, h1, h2, containersOf, mapGet_mapSet_eq]

/-- C4. Idempotence. When the synthesis completes on a pod with patch list `st.patches`,
the synthesis on the pod obtained by applying that list (for any resubmitted request)
completes too and returns the empty patch list. -/
theorem synthesize_idempotent (req req2 : AdmissionRequest) (podObject : JsonMap)
    (st : LoopState) (hsyn : synthesize req podObject = some st) :
    ∃ st2, synthesize req2 (applyPatches st.patches podObject) = some st2 ∧
      st2.patches = [] := by
  obtain ⟨cs, hcs⟩ := synthesize_some req podObject st hsyn
  have hp := synthesize_patches req podObject cs st hcs hsyn
  have hloop := hsyn
  rw [synthesize_eq req podObject cs hcs] at hloop
  rw [synthesize_eq req2 _ _ (containersOf_applyPatches st.patches podObject cs hcs)]
  refine rangeLoop_patched req req2 st.patches cs 0 _ st _ hloop ?_
  intro j c hj
  rw [hp, targets_map, Nat.zero_add]
  have hm := mem_clampIdx cs 0 j
  simp only [Nat.zero_le, true_and, Nat.sub_zero, hj, Option.some.injEq,
    exists_eq_left'] at hm
  cases ho : overLimit c
  · simp [hm, ho]
  · simp [hm, ho]

/-- C4, on the pod with containers a: 50m, b: 150m, c: 100m, d: 101m. -/
theorem synthesize_idempotent_witness :
    ∃ st2, synthesize (exampleRequest [])
        (applyPatches [mkPatch 1, mkPatch 3] (examplePod mixedContainers)) = some st2 ∧
      st2.patches = [] :=
  synthesize_idempotent (exampleRequest []) (exampleRequest [])
    (examplePod mixedContainers) { patches := [mkPatch 1, mkPatch 3], log := [] } rfl

end PodMutation

/-! ## Outcomes of the handler -/

namespace PodMutation

theorem marshalPatches_ok (patches : List PatchOp) :
    ∃ bytes, marshalPatches patches = .ok bytes ∧ bytes ≠ [] := by
  cases patches with
  | nil => exact ⟨_, rfl, by decide⟩
  | cons p ps => exact ⟨_, rfl, by simp⟩

theorem writeReview_eq (codec : Codec) (body : GoString) (review : AdmissionReview)
    (resp : AdmissionResponse) (m : Metrics) (log : List GoString)
    (hdec : codec.decodeReview body = .ok review) :
    ∃ bytes, writeReview codec review resp m log =
      { metrics := m, log := log,
        reply := .json { review with Response := some resp } bytes } := by
  obtain ⟨bytes, hb⟩ := codec.marshal_decoded body review resp hdec
  exact ⟨bytes, by simp [writeReview, hb]⟩

/-- Reply, counters and log of the handler on a request whose pod bytes do not decode. -/
theorem mutateHandler_undecodable (codec : Codec) (name : GoString) (m : Metrics)
    (body : GoString) (review : AdmissionReview) (req : AdmissionRequest) (err : GoString)
    (hdec : codec.decodeReview body = .ok review) (hreq : review.Request = some req)
    (hpod : codec.unmarshalPod req.Object.Raw = .error err) :
    ∃ bytes, mutateHandler codec name m body = some
      { metrics := { m with failure := inc m.failure (name, req.Namespace, req.Name) },
        log := [],
        reply := .json { review with Response := (some
          { UID := req.UID, Allowed := false, Result := some { Message := err },
            Patch := none, PatchType := none }) } bytes } := by
  obtain ⟨bytes, hb⟩ := writeReview_eq codec body review
    { UID := req.UID, Allowed := false, Result := some { Message := err },
      Patch := none, PatchType := none }
    { m with failure := inc m.failure (name, req.Namespace, req.Name) } [] hdec
  exact ⟨bytes, by simp [mutateHandler, hdec, hreq, hpod, hb]⟩

/-- Reply, counters and log of the handler on a request whose pod decodes and whose
synthesis completes. -/
theorem mutateHandler_synthesized (codec : Codec) (name : GoString) (m : Metrics)
    (body : GoString) (review : AdmissionReview) (req : AdmissionRequest)
    (podObject : JsonMap) (st : LoopState)
    (hdec : codec.decodeReview body = .ok review) (hreq : review.Request = some req)
    (hpod : codec.unmarshalPod req.Object.Raw = .ok podObject)
    (hsyn : synthesize req podObject = some st) :
    ∃ bytes patch, mutateHandler codec name m body = some
      { metrics := { m with success := inc m.success (name, req.Namespace, req.Name) },
        log := st.log,
        reply := .json { review with Response := (some
          { UID := req.UID, Allowed := true, Result := none,
            Patch := patch, PatchType := patch.map fun _ => PatchType.JSONPatch }) } bytes } ∧
      (st.patches = [] → patch = none) ∧
      (st.patches ≠ [] → ∃ pb, marshalPatches st.patches = .ok pb ∧ pb ≠ [] ∧
        patch = some pb) := by
  by_cases hlen : st.patches = []
  · obtain ⟨bytes, hb⟩ := writeReview_eq codec body review
      { UID := req.UID, Allowed := true, Result := none, Patch := none, PatchType := none }
      { m with success := inc m.success (name, req.Namespace, req.Name) } st.log hdec
    refine ⟨bytes, none, ?_, fun _ => rfl, fun h => absurd hlen h⟩
    simp [mutateHandler, hdec, hreq, hpod, hsyn, hlen, hb]
  · obtain ⟨pb, hpb, hne⟩ := marshalPatches_ok st.patches
    obtain ⟨bytes, hb⟩ := writeReview_eq codec body review
      { UID := req.UID, Allowed := true, Result := none, Patch := some pb,
        PatchType := some PatchType.JSONPatch }
      { m with success := inc m.success (name, req.Namespace, req.Name) } st.log hdec
    refine ⟨bytes, some pb, ?_, fun h => absurd h hlen, fun _ => ⟨pb, hpb, hne, rfl⟩⟩
    have hpos : 0 < st.patches.length := List.length_pos.mpr hlen
    simp [mutateHandler, hdec, hreq, hpod, hsyn, hpos, hpb, hb]

/-- The handler panics exactly where the envelope has no request or the synthesis
panics. -/
theorem mutateHandler_some (codec : Codec) (name : GoString) (m : Metrics)
    (body : GoString) (review : AdmissionReview) (served : Served)
    (hdec : codec.decodeReview body = .ok review)
    (h : mutateHandler codec name m body = some served) :
    ∃ req, review.Request = some req ∧
      ((∃ err, codec.unmarshalPod req.Object.Raw = .error err) ∨
       (∃ podObject st, codec.unmarshalPod req.Object.Raw = .ok podObject ∧
          synthesize req podObject = some st)) := by
  cases hreq : review.Request with
  | none => simp [mutateHandler, hdec, hreq] at h
  | some req =>
    refine ⟨req, rfl, ?_⟩
    cases hpod : codec.unmarshalPod req.Object.Raw with
    | error err => exact Or.inl ⟨err, rfl⟩
    | ok podObject =>
      cases hsyn : synthesize req podObject with
      | none => simp [mutateHandler, hdec, hreq, hpod, hsyn] at h
      | some st => exact Or.inr ⟨podObject, st, rfl, hsyn⟩

end PodMutation

/-! ## Claims about the response and the counters -/

namespace PodMutation

theorem inc_self (c : Labels → Nat) (l : Labels) : inc c l l = c l + 1 := by
  simp [inc]

theorem inc_ne (c : Labels → Nat) (l k : Labels) (h : k ≠ l) : inc c l k = c k := by
  simp [inc, h]

/-- C5. Metric attribution. A request whose envelope decodes and which the handler
processes without panicking gets a written admission response (status 200), and exactly
one of the two counters has grown, by exactly 1, in the bucket labelled by the instance
name and by the namespace and name fields of the admission request; the other counter
and every other bucket are as before. -/
theorem metric_attribution (codec : Codec) (name : GoString) (m : Metrics)
    (body : GoString) (review : AdmissionReview) (req : AdmissionRequest) (served : Served)
    (hdec : codec.decodeReview body = .ok review) (hreq : review.Request = some req)
    (h : mutateHandler codec name m body = some served) :
    (∃ rv bytes, served.reply = .json rv bytes) ∧
    ((served.metrics.success (name, req.Namespace, req.Name)
          = m.success (name, req.Namespace, req.Name) + 1 ∧
        (∀ k, k ≠ (name, req.Namespace, req.Name) →
          served.metrics.success k = m.success k) ∧
        served.metrics.failure = m.failure) ∨
      (served.metrics.failure (name, req.Namespace, req.Name)
          = m.failure (name, req.Namespace, req.Name) + 1 ∧
        (∀ k, k ≠ (name, req.Namespace, req.Name) →
          served.metrics.failure k = m.failure k) ∧
        served.metrics.success = m.success)) := by
  obtain ⟨req', hreq', hcase⟩ := mutateHandler_some codec name m body review served hdec h
  rw [hreq] at hreq'
  cases hreq'
  rcases hcase with ⟨err, hpod⟩ | ⟨podObject, st, hpod, hsyn⟩
  · obtain ⟨bytes, hb⟩ :=
      mutateHandler_undecodable codec name m body review req err hdec hreq hpod
    rw [hb] at h
    cases h
    exact ⟨⟨_, _, rfl⟩, Or.inr ⟨inc_self _ _, fun k hk => inc_ne _ _ k hk, rfl⟩⟩
  · obtain ⟨bytes, patch, hb, _, _⟩ :=
      mutateHandler_synthesized codec name m body review req podObject st hdec hreq hpod hsyn
    rw [hb] at h
    cases h
    exact ⟨⟨_, _, rfl⟩, Or.inl ⟨inc_self _ _, fun k hk => inc_ne _ _ k hk, rfl⟩⟩

/-- C5, on the request of main_test.go with containers a: 50m, b: 150m, c: 100m,
d: 101m. -/
theorem metric_attribution_witness :
    ∃ served, mutateHandler (exampleCodec [1] (exampleReview [2]) [2]
        (examplePod mixedContainers)) (lit "unknown") zeroMetrics [1] = some served ∧
    (∃ rv bytes, served.reply = .json rv bytes) ∧
    ((served.metrics.success (lit "unknown", lit "default", lit "test-pod")
          = zeroMetrics.success (lit "unknown", lit "default", lit "test-pod") + 1 ∧
        (∀ k, k ≠ (lit "unknown", lit "default", lit "test-pod") →
          served.metrics.success k = zeroMetrics.success k) ∧
        served.metrics.failure = zeroMetrics.failure) ∨
      (served.metrics.failure (lit "unknown", lit "default", lit "test-pod")
          = zeroMetrics.failure (lit "unknown", lit "default", lit "test-pod") + 1 ∧
        (∀ k, k ≠ (lit "unknown", lit "default", lit "test-pod") →
          served.metrics.failure k = zeroMetrics.failure k) ∧
        served.metrics.success = zeroMetrics.success)) :=
  ⟨_, rfl, metric_attribution (exampleCodec [1] (exampleReview [2]) [2]
    (examplePod mixedContainers)) (lit "unknown") zeroMetrics [1] (exampleReview [2])
    (exampleRequest [2]) _ rfl rfl rfl⟩

/-- C6. UID echo. Whenever the handler writes an admission response for a decoded
envelope, on the allowed and on the denied path alike, the uid of the response is the uid
of the incoming request, and the envelope that is written carries the incoming request
(and type information) unchanged. -/
theorem uid_echo (codec : Codec) (name : GoString) (m : Metrics)
    (body : GoString) (review : AdmissionReview) (req : AdmissionRequest) (served : Served)
    (hdec : codec.decodeReview body = .ok review) (hreq : review.Request = some req)
    (h : mutateHandler codec name m body = some served) :
    ∃ rv bytes resp, served.reply = .json rv bytes ∧ rv.Response = some resp ∧
      resp.UID = req.UID ∧ rv.Request = review.Request ∧
      rv.Kind = review.Kind ∧ rv.APIVersion = review.APIVersion := by
  obtain ⟨req', hreq', hcase⟩ := mutateHandler_some codec name m body review served hdec h
  rw [hreq] at hreq'
  cases hreq'
  rcases hcase with ⟨err, hpod⟩ | ⟨podObject, st, hpod, hsyn⟩
  · obtain ⟨bytes, hb⟩ :=
      mutateHandler_undecodable codec name m body review req err hdec hreq hpod
    rw [hb] at h
    cases h
    exact ⟨_, _, _, rfl, rfl, rfl, rfl, rfl, rfl⟩
  · obtain ⟨bytes, patch, hb, _, _⟩ :=
      mutateHandler_synthesized codec name m body review req podObject st hdec hreq hpod hsyn
    rw [hb] at h
    cases h
    exact ⟨_, _, _, rfl, rfl, rfl, rfl, rfl, rfl⟩

/-- C6, on a request of main_test.go whose pod bytes do not decode (denied path). -/
theorem uid_echo_witness :
    ∃ served, mutateHandler (exampleCodec [1] (exampleReview [7]) [2]
        (examplePod mixedContainers)) (lit "unknown") zeroMetrics [1] = some served ∧
    ∃ rv bytes resp, served.reply = .json rv bytes ∧ rv.Response = some resp ∧
      resp.UID = (exampleRequest [7]).UID ∧ rv.Request = (exampleReview [7]).Request ∧
      rv.Kind = (exampleReview [7]).Kind ∧ rv.APIVersion = (exampleReview [7]).APIVersion :=
  ⟨_, rfl, uid_echo (exampleCodec [1] (exampleReview [7]) [2]
    (examplePod mixedContainers)) (lit "unknown") zeroMetrics [1] (exampleReview [7])
    (exampleRequest [7]) _ rfl rfl rfl⟩

/-- C7. Patch and patchType coupling. In the admission response the handler writes, the
patch is present iff the pod decoded, the synthesized patch list is non-empty and
allowed is true; patchType is present iff the patch is; a present patchType is the
literal JSONPatch, and a present patch is a non-empty byte string. -/
theorem patch_coupling (codec : Codec) (name : GoString) (m : Metrics)
    (body : GoString) (review : AdmissionReview) (req : AdmissionRequest) (served : Served)
    (hdec : codec.decodeReview body = .ok review) (hreq : review.Request = some req)
    (h : mutateHandler codec name m body = some served) :
    ∃ rv bytes resp, served.reply = .json rv bytes ∧ rv.Response = some resp ∧
      (resp.Patch.isSome = true ↔
        ((∃ podObject st, codec.unmarshalPod req.Object.Raw = .ok podObject ∧
            synthesize req podObject = some st ∧ st.patches ≠ []) ∧ resp.Allowed = true)) ∧
      (resp.PatchType.isSome = true ↔ resp.Patch.isSome = true) ∧
      (∀ t, resp.PatchType = some t → t.text = lit "JSONPatch") ∧
      (∀ pb, resp.Patch = some pb → pb ≠ []) := by
  obtain ⟨req', hreq', hcase⟩ := mutateHandler_some codec name m body review served hdec h
  rw [hreq] at hreq'
  cases hreq'
  rcases hcase with ⟨err, hpod⟩ | ⟨podObject, st, hpod, hsyn⟩
  · obtain ⟨bytes, hb⟩ :=
      mutateHandler_undecodable codec name m body review req err hdec hreq hpod
    rw [hb] at h
    cases h
    refine ⟨_, _, _, rfl, rfl, ?_, by simp, by simp, by simp⟩
    simp [hpod]
  · obtain ⟨bytes, patch, hb, hnil, hcons⟩ :=
      mutateHandler_synthesized codec name m body review req podObject st hdec hreq hpod hsyn
    rw [hb] at h
    cases h
    refine ⟨_, _, _, rfl, rfl, ?_, ?_, ?_, ?_⟩
    · constructor
      · intro hp
        refine ⟨⟨podObject, st, hpod, hsyn, ?_⟩, rfl⟩
        intro hst
        rw [hnil hst] at hp
        simp at hp
      · rintro ⟨⟨p2, s2, hp2, hs2, hne⟩, _⟩
        rw [hpod] at hp2
        cases hp2
        rw [hsyn] at hs2
        cases hs2
        obtain ⟨pb, _, _, hpatch⟩ := hcons hne
        simp [hpatch]
    · cases patch <;> simp
    · intro t ht
      cases t
      rfl
    · intro pb hpb
      simp only at hpb
      by_cases hst : st.patches = []
      · rw [hnil hst] at hpb
        cases hpb
      · obtain ⟨pb2, _, hne, hpatch⟩ := hcons hst
        rw [hpatch] at hpb
        cases hpb
        exact hne

/-- C7, on the request of main_test.go with containers istio-proxy: 500m, app: 300m. -/
theorem patch_coupling_witness :
    ∃ served, mutateHandler (exampleCodec [1] (exampleReview [2]) [2]
        (examplePod sidecarContainers)) (lit "unknown") zeroMetrics [1] = some served ∧
    ∃ rv bytes resp, served.reply = .json rv bytes ∧ rv.Response = some resp ∧
      (resp.Patch.isSome = true ↔
        ((∃ podObject st, (exampleCodec [1] (exampleReview [2]) [2]
              (examplePod sidecarContainers)).unmarshalPod (exampleRequest [2]).Object.Raw
              = .ok podObject ∧
            synthesize (exampleRequest [2]) podObject = some st ∧ st.patches ≠ []) ∧
          resp.Allowed = true)) ∧
      (resp.PatchType.isSome = true ↔ resp.Patch.isSome = true) ∧
      (∀ t, resp.PatchType = some t → t.text = lit "JSONPatch") ∧
      (∀ pb, resp.Patch = some pb → pb ≠ []) :=
  ⟨_, rfl, patch_coupling (exampleCodec [1] (exampleReview [2]) [2]
    (examplePod sidecarContainers)) (lit "unknown") zeroMetrics [1] (exampleReview [2])
    (exampleRequest [2]) _ rfl rfl rfl⟩

end PodMutation

/-! ## Digit strings and complete runs -/

namespace PodMutation

theorem foldl_digits (ds : GoString) (hds : allDigits ds = true) : ∀ a : Nat,
    ds.foldl (fun acc ch =>
        acc.bind fun n => if 48 ≤ ch ∧ ch ≤ 57 then some (n * 10 + (ch - 48)) else none)
      (some a) = some (ds.foldl (fun n ch => n * 10 + (ch - 48)) a) := by
  induction ds with
  | nil => intro a; rfl
  | cons d ds ih =>
    intro a
    simp only [allDigits, List.all_cons, Bool.and_eq_true, decide_eq_true_eq] at hds
    simp only [List.foldl_cons, Option.some_bind, hds.1, and_self, if_true]
    exact ih (by simpa [allDigits] using hds.2) _

theorem Atoi_digits (ds : GoString) (hds : allDigits ds = true) (hne : ds ≠ [])
    (hmax : decimalValue ds < 2 ^ 63) : Atoi ds = some (decimalValue ds : Int) := by
  cases ds with
  | nil => exact absurd rfl hne
  | cons d rest =>
    have hd : 48 ≤ d ∧ d ≤ 57 := by
      simp only [allDigits, List.all_cons, Bool.and_eq_true, decide_eq_true_eq] at hds
      exact hds.1
    have h45 : ¬ d = 45 := by omega
    have h43 : ¬ d = 43 := by omega
    have hp : parseDigits (d :: rest) = some (decimalValue (d :: rest)) :=
      foldl_digits (d :: rest) hds 0
    simp only [Atoi, h45, h43, if_false, hp, hmax, if_true]

theorem clampIdx_nil (cs : List Json) (h : ∀ c ∈ cs, overLimit c = false) :
    ∀ i, clampIdx i cs = [] := by
  induction cs with
  | nil => intro i; rfl
  | cons c cs ih =>
    intro i
    simp [clampIdx, h c (by simp), ih (fun c hc => h c (by simp [hc]))]

theorem synthesize_complete (req : AdmissionRequest) (podObject : JsonMap) (cs : List Json)
    (hcs : containersOf podObject = some cs)
    (hshape : ∀ c ∈ cs, isNamed c (lit "istio-proxy") = true ∨
      ∃ cpu, cpuRequest c = some cpu ∧ cpu ≠ []) :
    ∃ st, synthesize req podObject = some st ∧ st.patches = (clampIdx 0 cs).map mkPatch := by
  obtain ⟨st, hst⟩ := rangeLoop_complete req cs hshape 0 { patches := [], log := [] }
  have hsyn : synthesize req podObject = some st := by
    rw [synthesize_eq req podObject cs hcs]; exact hst
  exact ⟨st, hsyn, synthesize_patches req podObject cs st hcs hsyn⟩

end PodMutation

/-! ## Claims about whole requests -/

namespace PodMutation

/-- C8, as stated, fails: a single container `nginx` whose CPU quantity is the digit
string 9223372036854775808 (above 100) followed by `m` gets status 200 and allowed, but
no patch and no patchType. -/
theorem single_overlimit_counterexample :
    isNamed (exampleContainer "nginx" "9223372036854775808m") (lit "istio-proxy") = false ∧
    cpuRequest (exampleContainer "nginx" "9223372036854775808m")
      = some (lit "9223372036854775808" ++ lit "m") ∧
    allDigits (lit "9223372036854775808") = true ∧
    100 < decimalValue (lit "9223372036854775808") ∧
    (mutateHandler
        (exampleCodec [1] (exampleReview [2]) [2]
          (examplePod [exampleContainer "nginx" "9223372036854775808m"]))
        (lit "unknown") zeroMetrics [1]).map
      (fun s => (s.reply.status,
        s.reply.response.map fun r => (r.Allowed, r.Patch, r.PatchType)))
      = some (200, some (true, none, none)) :=
  ⟨by decide, by decide, by decide, by decide, rfl⟩

/-- C8, amended. A request whose pod has exactly one container, not named istio-proxy,
whose CPU quantity is ASCII digits followed by `m` with value above 100 and at most
2^63 - 1, is answered with status 200 and allowed; the success counter of the request
grows by 1, the failure counter does not change, patchType is JSONPatch and the patch
bytes are exactly the array of main_test.go with the single `replace` operation. -/
theorem single_overlimit (codec : Codec) (name : GoString) (m : Metrics)
    (body : GoString) (review : AdmissionReview) (req : AdmissionRequest)
    (podObject : JsonMap) (c : Json) (ds : GoString)
    (hdec : codec.decodeReview body = .ok review) (hreq : review.Request = some req)
    (hpod : codec.unmarshalPod req.Object.Raw = .ok podObject)
    (hcs : containersOf podObject = some [c])
    (hname : isNamed c (lit "istio-proxy") = false)
    (hcpu : cpuRequest c = some (ds ++ lit "m"))
    (hds : allDigits ds = true) (hgt : 100 < decimalValue ds)
    (hmax : decimalValue ds ≤ 2 ^ 63 - 1) :
    ∃ served rv bytes resp, mutateHandler codec name m body = some served ∧
      served.reply = .json rv bytes ∧ served.reply.status = 200 ∧
      rv.Response = some resp ∧ resp.Allowed = true ∧
      resp.Patch = some expectedPatch ∧ resp.PatchType = some PatchType.JSONPatch ∧
      served.metrics.success (name, req.Namespace, req.Name)
        = m.success (name, req.Namespace, req.Name) + 1 ∧
      served.metrics.failure = m.failure := by
  have hne : ds ≠ [] := by
    intro h
    rw [h] at hgt
    simp [decimalValue] at hgt
  have hdrop : (ds ++ lit "m").dropLast = ds := by
    have : lit "m" = [109] := rfl
    rw [this, List.dropLast_concat]
  have hA : Atoi (ds ++ lit "m").dropLast = some (decimalValue ds : Int) := by
    rw [hdrop]
    exact Atoi_digits ds hds hne (by omega)
  have hov : overLimit c = true := by
    rw [overLimit_intro c _ _ hname hcpu hA]
    simp only [decide_eq_true_eq]
    exact_mod_cast hgt
  obtain ⟨st, hsyn, hp⟩ := synthesize_complete req podObject [c] hcs (by
    intro c' hc'
    simp only [List.mem_singleton] at hc'
    subst hc'
    exact Or.inr ⟨_, hcpu, by rw [show lit "m" = [109] from rfl]; simp⟩)
  have hp1 : st.patches = [mkPatch 0] := by
    rw [hp]
    simp [clampIdx, hov]
  obtain ⟨bytes, patch, hb, _, hcons⟩ :=
    mutateHandler_synthesized codec name m body review req podObject st hdec hreq hpod hsyn
  obtain ⟨pb, hpb, _, hpatch⟩ := hcons (by rw [hp1]; simp)
  have hexp : pb = expectedPatch := by
    rw [hp1] at hpb
    have hm : marshalPatches [mkPatch 0] = .ok expectedPatch := rfl
    rw [hm] at hpb
    cases hpb
    rfl
  subst hpatch
  subst hexp
  exact ⟨_, _, _, _, hb, rfl, rfl, rfl, rfl, rfl, rfl, inc_self _ _, rfl⟩

/-- C8 amended, on the request of TestMutateHandlerSuccess (nginx: 200m). -/
theorem single_overlimit_witness :
    ∃ served rv bytes resp,
      mutateHandler (exampleCodec [1] (exampleReview [2]) [2]
        (examplePod [exampleContainer "nginx" "200m"])) (lit "test-webhook-pod")
        zeroMetrics [1] = some served ∧
      served.reply = .json rv bytes ∧ served.reply.status = 200 ∧
      rv.Response = some resp ∧ resp.Allowed = true ∧
      resp.Patch = some expectedPatch ∧ resp.PatchType = some PatchType.JSONPatch ∧
      served.metrics.success
          (lit "test-webhook-pod", (exampleRequest [2]).Namespace, (exampleRequest [2]).Name)
        = zeroMetrics.success
          (lit "test-webhook-pod", (exampleRequest [2]).Namespace, (exampleRequest [2]).Name)
          + 1 ∧
      served.metrics.failure = zeroMetrics.failure :=
  single_overlimit (exampleCodec [1] (exampleReview [2]) [2]
    (examplePod [exampleContainer "nginx" "200m"])) (lit "test-webhook-pod") zeroMetrics [1]
    (exampleReview [2]) (exampleRequest [2]) (examplePod [exampleContainer "nginx" "200m"])
    (exampleContainer "nginx" "200m") (lit "200") rfl rfl rfl rfl rfl rfl (by decide)
    (by decide) (by decide)

/-- C9. No mutation needed. A request whose pod decodes and in which every container is
named istio-proxy or has a CPU quantity whose numeric part parses to at most 100 is
answered with status 200, allowed, no patch and no patchType; the success counter of the
request grows by 1 and the failure counter does not change. -/
theorem no_mutation_needed (codec : Codec) (name : GoString) (m : Metrics)
    (body : GoString) (review : AdmissionReview) (req : AdmissionRequest)
    (podObject : JsonMap) (cs : List Json)
    (hdec : codec.decodeReview body = .ok review) (hreq : review.Request = some req)
    (hpod : codec.unmarshalPod req.Object.Raw = .ok podObject)
    (hcs : containersOf podObject = some cs)
    (hall : ∀ c ∈ cs, isNamed c (lit "istio-proxy") = true ∨
      ∃ cpu n, cpuRequest c = some cpu ∧ Atoi cpu.dropLast = some n ∧ n ≤ 100) :
    ∃ served rv bytes resp, mutateHandler codec name m body = some served ∧
      served.reply = .json rv bytes ∧ served.reply.status = 200 ∧
      rv.Response = some resp ∧ resp.Allowed = true ∧
      resp.Patch = none ∧ resp.PatchType = none ∧
      served.metrics.success (name, req.Namespace, req.Name)
        = m.success (name, req.Namespace, req.Name) + 1 ∧
      served.metrics.failure = m.failure := by
  obtain ⟨st, hsyn, hp⟩ := synthesize_complete req podObject cs hcs (by
    intro c hc
    rcases hall c hc with hn | ⟨cpu, n, hcpu, hA, _⟩
    · exact Or.inl hn
    · refine Or.inr ⟨cpu, hcpu, ?_⟩
      intro h0
      rw [h0] at hA
      cases hA)
  have hnil : st.patches = [] := by
    rw [hp, clampIdx_nil cs]
    · rfl
    · intro c hc
      rcases hall c hc with hn | ⟨cpu, n, hcpu, hA, hle⟩
      · exact overLimit_of_sidecar c hn
      · cases hn : isNamed c (lit "istio-proxy")
        · rw [overLimit_intro c cpu n hn hcpu hA]
          simp only [decide_eq_false_iff_not]
          omega
        · exact overLimit_of_sidecar c hn
  obtain ⟨bytes, patch, hb, hnone, _⟩ :=
    mutateHandler_synthesized codec name m body review req podObject st hdec hreq hpod hsyn
  have hpn := hnone hnil
  subst hpn
  exact ⟨_, _, _, _, hb, rfl, rfl, rfl, rfl, rfl, rfl, inc_self _ _, rfl⟩

/-- C9, on the request of TestMutateHandlerNoMutationNeeded (nginx: 50m). -/
theorem no_mutation_needed_witness :
    ∃ served rv bytes resp,
      mutateHandler (exampleCodec [1] (exampleReview [2]) [2]
        (examplePod [exampleContainer "nginx" "50m"])) (lit "test-webhook-pod")
        zeroMetrics [1] = some served ∧
      served.reply = .json rv bytes ∧ served.reply.status = 200 ∧
      rv.Response = some resp ∧ resp.Allowed = true ∧
      resp.Patch = none ∧ resp.PatchType = none ∧
      served.metrics.success
          (lit "test-webhook-pod", (exampleRequest [2]).Namespace, (exampleRequest [2]).Name)
        = zeroMetrics.success
          (lit "test-webhook-pod", (exampleRequest [2]).Namespace, (exampleRequest [2]).Name)
          + 1 ∧
      served.metrics.failure = zeroMetrics.failure :=
  no_mutation_needed (exampleCodec [1] (exampleReview [2]) [2]
    (examplePod [exampleContainer "nginx" "50m"])) (lit "test-webhook-pod") zeroMetrics [1]
    (exampleReview [2]) (exampleRequest [2]) (examplePod [exampleContainer "nginx" "50m"])
    [exampleContainer "nginx" "50m"] rfl rfl rfl rfl (by
      intro c hc
      simp only [List.mem_singleton] at hc
      subst hc
      exact Or.inr ⟨lit "50m", 50, rfl, rfl, by decide⟩)

/-- C10. Malformed pod body. A request whose envelope decodes but whose pod bytes do
not decode is answered with status 200 and allowed = false, a status whose message is
the decode error and is not empty, no patch and no patchType; the failure counter of
(instance, request namespace, request name) grows by 1, its other buckets and the whole
success counter do not change. -/
theorem malformed_pod_body (codec : Codec) (name : GoString) (m : Metrics)
    (body : GoString) (review : AdmissionReview) (req : AdmissionRequest) (err : GoString)
    (hdec : codec.decodeReview body = .ok review) (hreq : review.Request = some req)
    (hpod : codec.unmarshalPod req.Object.Raw = .error err) :
    ∃ served rv bytes resp status, mutateHandler codec name m body = some served ∧
      served.reply = .json rv bytes ∧ served.reply.status = 200 ∧
      rv.Response = some resp ∧ resp.Allowed = false ∧
      resp.Result = some status ∧ status.Message = err ∧ status.Message ≠ [] ∧
      resp.Patch = none ∧ resp.PatchType = none ∧
      served.metrics.failure (name, req.Namespace, req.Name)
        = m.failure (name, req.Namespace, req.Name) + 1 ∧
      (∀ k, k ≠ (name, req.Namespace, req.Name) →
        served.metrics.failure k = m.failure k) ∧
      served.metrics.success = m.success := by
  obtain ⟨bytes, hb⟩ :=
    mutateHandler_undecodable codec name m body review req err hdec hreq hpod
  exact ⟨_, _, _, _, _, hb, rfl, rfl, rfl, rfl, rfl, rfl,
    codec.unmarshal_message _ _ hpod, rfl, rfl, inc_self _ _,
    fun k hk => inc_ne _ _ k hk, rfl⟩

/-- C10, on a request of main_test.go whose pod bytes are not the ones that decode. -/
theorem malformed_pod_body_witness :
    ∃ served rv bytes resp status,
      mutateHandler (exampleCodec [1] (exampleReview [7]) [2] (examplePod []))
        (lit "unknown") zeroMetrics [1] = some served ∧
      served.reply = .json rv bytes ∧ served.reply.status = 200 ∧
      rv.Response = some resp ∧ resp.Allowed = false ∧
      resp.Result = some status ∧
      status.Message = lit "unexpected end of JSON input" ∧ status.Message ≠ [] ∧
      resp.Patch = none ∧ resp.PatchType = none ∧
      served.metrics.failure
          (lit "unknown", (exampleRequest [7]).Namespace, (exampleRequest [7]).Name)
        = zeroMetrics.failure
          (lit "unknown", (exampleRequest [7]).Namespace, (exampleRequest [7]).Name) + 1 ∧
      (∀ k, k ≠ (lit "unknown", (exampleRequest [7]).Namespace, (exampleRequest [7]).Name) →
        served.metrics.failure k = zeroMetrics.failure k) ∧
      served.metrics.success = zeroMetrics.success :=
  malformed_pod_body (exampleCodec [1] (exampleReview [7]) [2] (examplePod []))
    (lit "unknown") zeroMetrics [1] (exampleReview [7]) (exampleRequest [7])
    (lit "unexpected end of JSON input") rfl rfl rfl

end PodMutation

/-! ## Shape errors and undecodable envelopes -/

namespace PodMutation

theorem loopBody_none (req : AdmissionRequest) (i : Nat) (c : Json) (st : LoopState)
    (hname : isNamed c (lit "istio-proxy") = false) (hcpu : cpuRequest c = none) :
    loopBody req i c st = none := by
  cases h : loopBody req i c st with
  | none => rfl
  | some st' =>
    rcases loopBody_some req i c st st' h with hn | ⟨_, cpu, hc, _⟩
    · rw [hname] at hn; cases hn
    · rw [hcpu] at hc; cases hc

theorem rangeLoop_none (req : AdmissionRequest) (cs : List Json) (c : Json) (hc : c ∈ cs)
    (hname : isNamed c (lit "istio-proxy") = false) (hcpu : cpuRequest c = none) :
    ∀ (i : Nat) (st : LoopState), rangeLoop req i cs st = none := by
  induction cs with
  | nil => cases hc
  | cons d cs ih =>
    intro i st
    unfold rangeLoop
    cases hb : loopBody req i d st with
    | none => rfl
    | some s1 =>
      simp only
      rcases List.mem_cons.mp hc with hcd | hcs
      · subst hcd
        rw [loopBody_none req i c st hname hcpu] at hb
        cases hb
      · exact ih hcs (i + 1) s1

theorem synthesize_none (req : AdmissionRequest) (podObject : JsonMap)
    (hshape : containersOf podObject = none ∨
      ∃ cs, containersOf podObject = some cs ∧
        ∃ c ∈ cs, isNamed c (lit "istio-proxy") = false ∧ cpuRequest c = none) :
    synthesize req podObject = none := by
  rcases hshape with hnone | ⟨cs, hcs, c, hc, hname, hcpu⟩
  · cases h : synthesize req podObject with
    | none => rfl
    | some st =>
      obtain ⟨cs, hcs⟩ := synthesize_some req podObject st h
      rw [hnone] at hcs
      cases hcs
  · rw [synthesize_eq req podObject cs hcs]
    exact rangeLoop_none req cs c hc hname hcpu 0 _

theorem mutateHandler_panics (codec : Codec) (name : GoString) (m : Metrics)
    (body : GoString) (review : AdmissionReview) (req : AdmissionRequest)
    (podObject : JsonMap)
    (hdec : codec.decodeReview body = .ok review) (hreq : review.Request = some req)
    (hpod : codec.unmarshalPod req.Object.Raw = .ok podObject)
    (hsyn : synthesize req podObject = none) :
    mutateHandler codec name m body = none := by
  simp [mutateHandler, hdec, hreq, hpod, hsyn]

/-- C11, as stated, fails: a pod without `spec`, and a pod whose container `nginx` has no
`resources`, both decode, and on both the handler panics: there is no reply at all, so
none with allowed = false and no counted failure. -/
theorem shape_error_counterexample :
    mapGet (lit "spec") specLessPod = none ∧
    (mutateHandler (exampleCodec [1] (exampleReview [2]) [2] specLessPod)
      (lit "unknown") zeroMetrics [1]).isSome = false ∧
    isNamed (bareContainer "nginx") (lit "istio-proxy") = false ∧
    cpuRequest (bareContainer "nginx") = none ∧
    (mutateHandler (exampleCodec [1] (exampleReview [2]) [2]
        (examplePod [bareContainer "nginx"]))
      (lit "unknown") zeroMetrics [1]).isSome = false :=
  ⟨rfl, rfl, rfl, rfl, rfl⟩

/-- C11, amended. On a request whose envelope and pod bytes decode but whose pod has no
`spec` object or no `spec.containers` array (lacking `spec` or `spec.containers` gives
`containersOf = none`), or has a container not named istio-proxy without a string at
`resources.requests.cpu` (lacking `resources`, `requests` or `cpu` gives
`cpuRequest = none`), the handler panics: it writes no reply and touches no counter. -/
theorem shape_error_panics (codec : Codec) (name : GoString) (m : Metrics)
    (body : GoString) (review : AdmissionReview) (req : AdmissionRequest)
    (podObject : JsonMap)
    (hdec : codec.decodeReview body = .ok review) (hreq : review.Request = some req)
    (hpod : codec.unmarshalPod req.Object.Raw = .ok podObject)
    (hshape : containersOf podObject = none ∨
      ∃ cs, containersOf podObject = some cs ∧
        ∃ c ∈ cs, isNamed c (lit "istio-proxy") = false ∧ cpuRequest c = none) :
    mutateHandler codec name m body = none :=
  mutateHandler_panics codec name m body review req podObject hdec hreq hpod
    (synthesize_none req podObject hshape)

/-- C11 amended, on a pod whose second container has no `resources`. -/
theorem shape_error_panics_witness :
    cpuRequest (bareContainer "app") = none ∧
    mutateHandler (exampleCodec [1] (exampleReview [2]) [2]
        (examplePod [exampleContainer "web" "200m", bareContainer "app"]))
      (lit "unknown") zeroMetrics [1] = none :=
  ⟨rfl, shape_error_panics (exampleCodec [1] (exampleReview [2]) [2]
      (examplePod [exampleContainer "web" "200m", bareContainer "app"]))
    (lit "unknown") zeroMetrics [1] (exampleReview [2]) (exampleRequest [2])
    (examplePod [exampleContainer "web" "200m", bareContainer "app"]) rfl rfl rfl
    (Or.inr ⟨_, rfl, bareContainer "app", by simp, rfl, rfl⟩)⟩

/-- C13. Malformed envelope. When the request body does not decode as an admission
envelope the handler replies with status 400 and the message `could not decode
request`, writes no admission response and leaves both counters as they were, for
every label tuple. -/
theorem malformed_envelope (codec : Codec) (name : GoString) (m : Metrics)
    (body : GoString) (err : GoString)
    (hdec : codec.decodeReview body = .error err) :
    ∃ served, mutateHandler codec name m body = some served ∧
      served.reply = .error (lit "could not decode request") 400 ∧
      served.reply.status = 400 ∧ served.reply.response = none ∧
      (∀ k, served.metrics.success k = m.success k) ∧
      (∀ k, served.metrics.failure k = m.failure k) := by
  refine ⟨{ metrics := m, log := [], reply := .error (lit "could not decode request") 400 },
    ?_, rfl, rfl, rfl, fun _ => rfl, fun _ => rfl⟩
  simp [mutateHandler, hdec]

/-- C13, on a body the example codec rejects. -/
theorem malformed_envelope_witness :
    ∃ served, mutateHandler (exampleCodec [1] (exampleReview [2]) [2] (examplePod []))
        (lit "unknown") zeroMetrics [9] = some served ∧
      served.reply = .error (lit "could not decode request") 400 ∧
      served.reply.status = 400 ∧ served.reply.response = none ∧
      (∀ k, served.metrics.success k = zeroMetrics.success k) ∧
      (∀ k, served.metrics.failure k = zeroMetrics.failure k) :=
  malformed_envelope (exampleCodec [1] (exampleReview [2]) [2] (examplePod []))
    (lit "unknown") zeroMetrics [9] (lit "EOF") rfl

end PodMutation

/-! ## Parse failures and soundness of the patch list -/

namespace PodMutation

theorem overLimit_of_unparsed (c : Json) (cpu : GoString)
    (hcpu : cpuRequest c = some cpu) (hn : Atoi cpu.dropLast = none) :
    overLimit c = false := by
  simp [overLimit, hcpu, hn]

theorem clampIdx_length (cs : List Json) : ∀ i, (clampIdx i cs).length ≤ cs.length := by
  induction cs with
  | nil => intro i; simp [clampIdx]
  | cons c cs ih =>
    intro i
    have := ih (i + 1)
    by_cases ho : overLimit c = true
    · simp [clampIdx, ho]; omega
    · simp [clampIdx, ho]; omega

theorem loopBody_log_mono (req : AdmissionRequest) (i : Nat) (c : Json)
    (st st' : LoopState) (h : loopBody req i c st = some st') :
    ∀ l ∈ st.log, l ∈ st'.log := by
  intro l hl
  rcases loopBody_some req i c st st' h with hn | ⟨hn, cpu, hcpu, hne⟩
  · rw [loopBody_sidecar req i c st hn] at h
    cases h
    exact hl
  · rw [loopBody_cpu req i c st cpu hn hcpu hne] at h
    simp only [Option.some.injEq] at h
    subst h
    cases Atoi cpu.dropLast with
    | none => simp [hl]
    | some n =>
      simp only
      split <;> exact hl

theorem rangeLoop_log_mono (req : AdmissionRequest) (cs : List Json) :
    ∀ (i : Nat) (st st' : LoopState), rangeLoop req i cs st = some st' →
      ∀ l ∈ st.log, l ∈ st'.log := by
  induction cs with
  | nil =>
    intro i st st' h l hl
    simp only [rangeLoop, Option.some.injEq] at h
    subst h
    exact hl
  | cons c cs ih =>
    intro i st st' h l hl
    unfold rangeLoop at h
    cases hb : loopBody req i c st with
    | none => simp [hb] at h
    | some s1 =>
      simp only [hb] at h
      exact ih (i + 1) s1 st' h l (loopBody_log_mono req i c st s1 hb l hl)

theorem rangeLoop_logged (req : AdmissionRequest) (cs : List Json) (c : Json)
    (cpu : GoString) (hname : isNamed c (lit "istio-proxy") = false)
    (hcpu : cpuRequest c = some cpu) (hne : cpu ≠ []) (hparse : Atoi cpu.dropLast = none) :
    ∀ (j i : Nat) (st st' : LoopState), cs[j]? = some c →
      rangeLoop req i cs st = some st' → invalidCPULine cpu req ∈ st'.log := by
  induction cs with
  | nil => intro j i st st' hj; simp at hj
  | cons d cs ih =>
    intro j i st st' hj h
    unfold rangeLoop at h
    cases hb : loopBody req i d st with
    | none => simp [hb] at h
    | some s1 =>
      simp only [hb] at h
      cases j with
      | zero =>
        simp only [List.getElem?_cons_zero, Option.some.injEq] at hj
        subst hj
        rw [loopBody_cpu req i d st cpu hname hcpu hne, hparse] at hb
        simp only [Option.some.injEq] at hb
        subst hb
        exact rangeLoop_log_mono req cs (i + 1) _ st' h _ (by simp)
      | succ j =>
        rw [List.getElem?_cons_succ] at hj
        exact ih j (i + 1) s1 st' hj h

/-- C12, as stated, fails: single containers with CPU quantities `2000`, `500k` and
`+200m` (none of them digits followed by `m`) each get a patch, and on the empty
quantity the handler panics instead of answering. -/
theorem quantity_parse_counterexample :
    (synthesize (exampleRequest []) (examplePod [exampleContainer "app" "2000"])).map
        (fun st => st.patches) = some [mkPatch 0] ∧
    (synthesize (exampleRequest []) (examplePod [exampleContainer "app" "500k"])).map
        (fun st => st.patches) = some [mkPatch 0] ∧
    (synthesize (exampleRequest []) (examplePod [exampleContainer "app" "+200m"])).map
        (fun st => st.patches) = some [mkPatch 0] ∧
    (mutateHandler (exampleCodec [1] (exampleReview [2]) [2]
        (examplePod [exampleContainer "app" "500k"]))
      (lit "unknown") zeroMetrics [1]).map
        (fun s => s.reply.response.map fun r => (r.Allowed, r.Patch))
      = some (some (true, some expectedPatch)) ∧
    (mutateHandler (exampleCodec [1] (exampleReview [2]) [2]
        (examplePod [exampleContainer "app" ""]))
      (lit "unknown") zeroMetrics [1]).isSome = false :=
  ⟨rfl, rfl, rfl, rfl, rfl⟩

/-- C12, amended. In a pod all of whose containers are named istio-proxy or carry a
non-empty CPU string, take a container at index `i`, not named istio-proxy, whose CPU
string without its last byte fails to parse as an integer. Then the request is answered
with status 200 and allowed = true, the success counter of the request grows by 1 and
the failure counter does not change; the diagnostic line for the quantity is logged, no
operation of the patch list has the path of container `i`, and every over-limit
container at another index still has its operation in the list, which is what the
response carries. -/
theorem quantity_parse_failure (codec : Codec) (name : GoString) (m : Metrics)
    (body : GoString) (review : AdmissionReview) (req : AdmissionRequest)
    (podObject : JsonMap) (cs : List Json) (i : Nat) (c : Json) (cpu : GoString)
    (hdec : codec.decodeReview body = .ok review) (hreq : review.Request = some req)
    (hpod : codec.unmarshalPod req.Object.Raw = .ok podObject)
    (hcs : containersOf podObject = some cs)
    (hshape : ∀ d ∈ cs, isNamed d (lit "istio-proxy") = true ∨
      ∃ q, cpuRequest d = some q ∧ q ≠ [])
    (hc : cs[i]? = some c)
    (hname : isNamed c (lit "istio-proxy") = false)
    (hcpu : cpuRequest c = some cpu)
    (hparse : Atoi cpu.dropLast = none) :
    ∃ st served rv bytes resp, synthesize req podObject = some st ∧
      (∀ p ∈ st.patches, p.field (lit "path") ≠ some (cpuPath i)) ∧
      (∀ j d, cs[j]? = some d → overLimit d = true → mkPatch j ∈ st.patches) ∧
      mutateHandler codec name m body = some served ∧
      served.reply = .json rv bytes ∧ served.reply.status = 200 ∧
      rv.Response = some resp ∧ resp.Allowed = true ∧
      (st.patches = [] → resp.Patch = none) ∧
      (st.patches ≠ [] → ∃ pb, marshalPatches st.patches = .ok pb ∧ resp.Patch = some pb) ∧
      invalidCPULine cpu req ∈ served.log ∧
      served.metrics.success (name, req.Namespace, req.Name)
        = m.success (name, req.Namespace, req.Name) + 1 ∧
      served.metrics.failure = m.failure := by
  obtain ⟨st, hsyn, hp⟩ := synthesize_complete req podObject cs hcs hshape
  obtain ⟨bytes, patch, hb, hnil, hcons⟩ :=
    mutateHandler_synthesized codec name m body review req podObject st hdec hreq hpod hsyn
  have hne : cpu ≠ [] := by
    rcases hshape c (List.getElem?_mem hc) with hn | ⟨q, hq, hqne⟩
    · rw [hname] at hn; cases hn
    · rw [hcpu] at hq; cases hq; exact hqne
  have hlog : invalidCPULine cpu req ∈ st.log := by
    have hloop := hsyn
    rw [synthesize_eq req podObject cs hcs] at hloop
    exact rangeLoop_logged req cs c cpu hname hcpu hne hparse i 0 _ st hc hloop
  refine ⟨st, _, _, bytes, _, hsyn, ?_, ?_, hb, rfl, rfl, rfl, rfl, hnil, ?_, hlog,
    inc_self _ _, rfl⟩
  · intro p hpm hpath
    rw [hp, List.mem_map] at hpm
    obtain ⟨k, hk, rfl⟩ := hpm
    rw [field_path_mkPatch] at hpath
    have hki : k = i := cpuPath_injective (Option.some.inj hpath)
    subst hki
    obtain ⟨_, c2, hc2, ho⟩ := (mem_clampIdx cs 0 k).mp hk
    simp only [Nat.sub_zero, hc, Option.some.injEq] at hc2
    subst hc2
    rw [overLimit_of_unparsed c cpu hcpu hparse] at ho
    cases ho
  · intro j d hj ho
    rw [hp, List.mem_map]
    exact ⟨j, (mem_clampIdx cs 0 j).mpr ⟨Nat.zero_le _, d, by simpa using hj, ho⟩, rfl⟩
  · intro hne
    obtain ⟨pb, hpb, _, hpatch⟩ := hcons hne
    exact ⟨pb, hpb, hpatch⟩

/-- C12 amended, on containers web: abcm, app: 200m, at index 0. -/
theorem quantity_parse_failure_witness :
    ∃ st served rv bytes resp,
      synthesize (exampleRequest [2])
        (examplePod [exampleContainer "web" "abcm", exampleContainer "app" "200m"])
        = some st ∧
      (∀ p ∈ st.patches, p.field (lit "path") ≠ some (cpuPath 0)) ∧
      (∀ j d, [exampleContainer "web" "abcm", exampleContainer "app" "200m"][j]? = some d →
        overLimit d = true → mkPatch j ∈ st.patches) ∧
      mutateHandler (exampleCodec [1] (exampleReview [2]) [2]
          (examplePod [exampleContainer "web" "abcm", exampleContainer "app" "200m"]))
        (lit "unknown") zeroMetrics [1] = some served ∧
      served.reply = .json rv bytes ∧ served.reply.status = 200 ∧
      rv.Response = some resp ∧ resp.Allowed = true ∧
      (st.patches = [] → resp.Patch = none) ∧
      (st.patches ≠ [] → ∃ pb, marshalPatches st.patches = .ok pb ∧ resp.Patch = some pb) ∧
      invalidCPULine (lit "abcm") (exampleRequest [2]) ∈ served.log ∧
      served.metrics.success
          (lit "unknown", (exampleRequest [2]).Namespace, (exampleRequest [2]).Name)
        = zeroMetrics.success
          (lit "unknown", (exampleRequest [2]).Namespace, (exampleRequest [2]).Name) + 1 ∧
      served.metrics.failure = zeroMetrics.failure :=
  quantity_parse_failure (exampleCodec [1] (exampleReview [2]) [2]
      (examplePod [exampleContainer "web" "abcm", exampleContainer "app" "200m"]))
    (lit "unknown") zeroMetrics [1] (exampleReview [2]) (exampleRequest [2])
    (examplePod [exampleContainer "web" "abcm", exampleContainer "app" "200m"])
    [exampleContainer "web" "abcm", exampleContainer "app" "200m"] 0
    (exampleContainer "web" "abcm") (lit "abcm") rfl rfl rfl rfl
    (by
      intro d hd
      simp only [List.mem_cons, List.mem_singleton, List.not_mem_nil, or_false] at hd
      rcases hd with rfl | rfl
      · exact Or.inr ⟨lit "abcm", rfl, by decide⟩
      · exact Or.inr ⟨lit "200m", rfl, by decide⟩)
    rfl rfl rfl rfl

/-- C14. Soundness of the patch list. On a pod whose synthesis returns patch list
`st.patches`, every operation of the list is the map with op `replace`, value `100m`
and the CPU path of some index `i` below the number of containers, where container `i`
is not named istio-proxy and its CPU number parsed above 100; no path occurs twice, and
the list is no longer than the container sequence. -/
theorem patch_soundness (req : AdmissionRequest) (podObject : JsonMap)
    (containers : List Json) (st : LoopState)
    (hcs : containersOf podObject = some containers)
    (hsyn : synthesize req podObject = some st) :
    (∀ p ∈ st.patches,
      p.field (lit "op") = some (lit "replace") ∧
      p.field (lit "value") = some (lit "100m") ∧
      ∃ i c cpu n, i < containers.length ∧ containers[i]? = some c ∧
        p = mkPatch i ∧ p.field (lit "path") = some (cpuPath i) ∧
        isNamed c (lit "istio-proxy") = false ∧ cpuRequest c = some cpu ∧
        Atoi cpu.dropLast = some n ∧ 100 < n) ∧
    (∀ i, st.patches.countP (fun p => decide (p.field (lit "path") = some (cpuPath i))) ≤ 1) ∧
    st.patches.length ≤ containers.length := by
  have hp := synthesize_patches req podObject containers st hcs hsyn
  refine ⟨?_, ?_, ?_⟩
  · intro p hpm
    rw [hp, List.mem_map] at hpm
    obtain ⟨k, hk, rfl⟩ := hpm
    obtain ⟨_, c, hc, ho⟩ := (mem_clampIdx containers 0 k).mp hk
    obtain ⟨hname, cpu, n, hcpu, hn, hgt⟩ := overLimit_elim c ho
    have hc2 : containers[k]? = some c := by simpa using hc
    have hlt : k < containers.length := by
      obtain ⟨h, _⟩ := List.getElem?_eq_some.mp hc2
      exact h
    exact ⟨field_op_mkPatch k, field_value_mkPatch k, k, c, cpu, n, hlt, hc2, rfl,
      field_path_mkPatch k, hname, hcpu, hn, hgt⟩
  · intro i
    rw [hp, countP_path]
    exact List.nodup_iff_count_le_one.mp (clampIdx_nodup containers 0) i
  · rw [hp, List.length_map]
    exact clampIdx_length containers 0

/-- C14, on the pod with containers a: 50m, b: 150m, c: 100m, d: 101m. -/
theorem patch_soundness_witness :
    (∀ p ∈ [mkPatch 1, mkPatch 3],
      p.field (lit "op") = some (lit "replace") ∧
      p.field (lit "value") = some (lit "100m") ∧
      ∃ i c cpu n, i < mixedContainers.length ∧ mixedContainers[i]? = some c ∧
        p = mkPatch i ∧ p.field (lit "path") = some (cpuPath i) ∧
        isNamed c (lit "istio-proxy") = false ∧ cpuRequest c = some cpu ∧
        Atoi cpu.dropLast = some n ∧ 100 < n) ∧
    (∀ i, [mkPatch 1, mkPatch 3].countP
      (fun p => decide (p.field (lit "path") = some (cpuPath i))) ≤ 1) ∧
    [mkPatch 1, mkPatch 3].length ≤ mixedContainers.length :=
  patch_soundness (exampleRequest []) (examplePod mixedContainers) mixedContainers
    { patches := [mkPatch 1, mkPatch 3], log := [] } rfl rfl

end PodMutation

/-! ## The unit byte -/

namespace PodMutation

theorem overLimit_congr (c c2 : Json) (cpu cpu2 : GoString)
    (hname : isNamed c2 (lit "istio-proxy") = isNamed c (lit "istio-proxy"))
    (hcpu : cpuRequest c = some cpu) (hcpu2 : cpuRequest c2 = some cpu2)
    (hdrop : cpu2.dropLast = cpu.dropLast) : overLimit c2 = overLimit c := by
  simp [overLimit, hname, hcpu, hcpu2, hdrop]

theorem clampIdx_set (cs : List Json) (c2 : Json) : ∀ (i k : Nat) (c : Json),
    cs[i]? = some c → overLimit c2 = overLimit c →
    clampIdx k (cs.set i c2) = clampIdx k cs := by
  induction cs with
  | nil => intro i k c hc; simp at hc
  | cons d cs ih =>
    intro i k c hc ho
    cases i with
    | zero =>
      simp only [List.getElem?_cons_zero, Option.some.injEq] at hc
      subst hc
      simp [clampIdx, ho]
    | succ i =>
      rw [List.getElem?_cons_succ] at hc
      simp [clampIdx, ih i (k + 1) c hc ho]

/-- C15. The unit byte is never inspected. Take a pod all of whose containers are
named istio-proxy or carry a non-empty CPU string, and a second pod whose containers are
the same except at index `i`, where the container has the same name verdict and a
non-empty CPU string that agrees with the first one up to its last byte; let both be
submitted under the same namespace and name. Then both syntheses complete with the same
patch list, and both requests are answered, with the same allowed value, the same patch
bytes and patchType, and the same counters afterwards. -/
theorem unit_byte_blind (codec : Codec) (name : GoString) (m : Metrics)
    (body body2 : GoString) (review review2 : AdmissionReview)
    (req req2 : AdmissionRequest) (podObject podObject2 : JsonMap) (cs : List Json)
    (i : Nat) (c c2 : Json) (cpu cpu2 : GoString)
    (hdec : codec.decodeReview body = .ok review) (hreq : review.Request = some req)
    (hpod : codec.unmarshalPod req.Object.Raw = .ok podObject)
    (hdec2 : codec.decodeReview body2 = .ok review2) (hreq2 : review2.Request = some req2)
    (hpod2 : codec.unmarshalPod req2.Object.Raw = .ok podObject2)
    (hns : req2.Namespace = req.Namespace) (hnm : req2.Name = req.Name)
    (hcs : containersOf podObject = some cs)
    (hcs2 : containersOf podObject2 = some (cs.set i c2))
    (hshape : ∀ d ∈ cs, isNamed d (lit "istio-proxy") = true ∨
      ∃ q, cpuRequest d = some q ∧ q ≠ [])
    (hc : cs[i]? = some c)
    (hname : isNamed c2 (lit "istio-proxy") = isNamed c (lit "istio-proxy"))
    (hcpu : cpuRequest c = some cpu) (hcpu2 : cpuRequest c2 = some cpu2)
    (hne : cpu ≠ []) (hne2 : cpu2 ≠ [])
    (hdrop : cpu2.dropLast = cpu.dropLast) :
    ∃ st st2 served served2 rv rv2 bytes bytes2 resp resp2,
      synthesize req podObject = some st ∧ synthesize req2 podObject2 = some st2 ∧
      st2.patches = st.patches ∧
      mutateHandler codec name m body = some served ∧
      mutateHandler codec name m body2 = some served2 ∧
      served.reply = .json rv bytes ∧ served2.reply = .json rv2 bytes2 ∧
      rv.Response = some resp ∧ rv2.Response = some resp2 ∧
      resp2.Allowed = resp.Allowed ∧ resp2.Patch = resp.Patch ∧
      resp2.PatchType = resp.PatchType ∧
      served2.metrics.success = served.metrics.success ∧
      served2.metrics.failure = served.metrics.failure := by
  have _ := hne
  have hov := overLimit_congr c c2 cpu cpu2 hname hcpu hcpu2 hdrop
  have hshape2 : ∀ d ∈ cs.set i c2, isNamed d (lit "istio-proxy") = true ∨
      ∃ q, cpuRequest d = some q ∧ q ≠ [] := by
    intro d hd
    rcases List.mem_or_eq_of_mem_set hd with hd | hd
    · exact hshape d hd
    · subst hd
      exact Or.inr ⟨cpu2, hcpu2, hne2⟩
  obtain ⟨st, hsyn, hp⟩ := synthesize_complete req podObject cs hcs hshape
  obtain ⟨st2, hsyn2, hp2⟩ := synthesize_complete req2 podObject2 _ hcs2 hshape2
  have hsame : st2.patches = st.patches := by
    rw [hp, hp2, clampIdx_set cs c2 i 0 c hc hov]
  obtain ⟨bytes, patch, hb, hnil, hcons⟩ :=
    mutateHandler_synthesized codec name m body review req podObject st hdec hreq hpod hsyn
  obtain ⟨bytes2, patch2, hb2, hnil2, hcons2⟩ :=
    mutateHandler_synthesized codec name m body2 review2 req2 podObject2 st2
      hdec2 hreq2 hpod2 hsyn2
  have hpatch : patch2 = patch := by
    by_cases hst : st.patches = []
    · rw [hnil hst, hnil2 (by rw [hsame]; exact hst)]
    · obtain ⟨pb, hpb, _, hpe⟩ := hcons hst
      obtain ⟨pb2, hpb2, _, hpe2⟩ := hcons2 (by rw [hsame]; exact hst)
      rw [hsame, hpb] at hpb2
      cases hpb2
      rw [hpe, hpe2]
  refine ⟨st, st2, _, _, _, _, bytes, bytes2, _, _, hsyn, hsyn2, hsame, hb, hb2,
    rfl, rfl, rfl, rfl, rfl, ?_, ?_, ?_, rfl⟩
  · simp only [hpatch]
  · simp only [hpatch]
  · simp only [hns, hnm]

/-- C15, on the pod with containers web: 50m, app: 500m and the pod with containers
web: 50m, app: 500k. -/
theorem unit_byte_blind_witness :
    ∃ st st2 served served2 rv rv2 bytes bytes2 resp resp2,
      synthesize (exampleRequest [2])
        (examplePod [exampleContainer "web" "50m", exampleContainer "app" "500m"])
        = some st ∧
      synthesize (exampleRequest [4])
        (examplePod [exampleContainer "web" "50m", exampleContainer "app" "500k"])
        = some st2 ∧
      st2.patches = st.patches ∧
      mutateHandler
        (exampleCodec2 [1] (exampleReview [2]) [2]
          (examplePod [exampleContainer "web" "50m", exampleContainer "app" "500m"])
          [3] (exampleReview [4]) [4]
          (examplePod [exampleContainer "web" "50m", exampleContainer "app" "500k"]))
        (lit "unknown") zeroMetrics [1] = some served ∧
      mutateHandler
        (exampleCodec2 [1] (exampleReview [2]) [2]
          (examplePod [exampleContainer "web" "50m", exampleContainer "app" "500m"])
          [3] (exampleReview [4]) [4]
          (examplePod [exampleContainer "web" "50m", exampleContainer "app" "500k"]))
        (lit "unknown") zeroMetrics [3] = some served2 ∧
      served.reply = .json rv bytes ∧ served2.reply = .json rv2 bytes2 ∧
      rv.Response = some resp ∧ rv2.Response = some resp2 ∧
      resp2.Allowed = resp.Allowed ∧ resp2.Patch = resp.Patch ∧
      resp2.PatchType = resp.PatchType ∧
      served2.metrics.success = served.metrics.success ∧
      served2.metrics.failure = served.metrics.failure :=
  unit_byte_blind
    (exampleCodec2 [1] (exampleReview [2]) [2]
      (examplePod [exampleContainer "web" "50m", exampleContainer "app" "500m"])
      [3] (exampleReview [4]) [4]
      (examplePod [exampleContainer "web" "50m", exampleContainer "app" "500k"]))
    (lit "unknown") zeroMetrics [1] [3] (exampleReview [2]) (exampleReview [4])
    (exampleRequest [2]) (exampleRequest [4])
    (examplePod [exampleContainer "web" "50m", exampleContainer "app" "500m"])
    (examplePod [exampleContainer "web" "50m", exampleContainer "app" "500k"])
    [exampleContainer "web" "50m", exampleContainer "app" "500m"] 1
    (exampleContainer "app" "500m") (exampleContainer "app" "500k")
    (lit "500m") (lit "500k")
    rfl rfl rfl rfl rfl rfl rfl rfl rfl rfl
    (by
      intro d hd
      simp only [List.mem_cons, List.mem_singleton, List.not_mem_nil, or_false] at hd
      rcases hd with rfl | rfl
      · exact Or.inr ⟨lit "50m", rfl, by decide⟩
      · exact Or.inr ⟨lit "500m", rfl, by decide⟩)
    rfl rfl rfl rfl (by decide) (by decide) rfl

end PodMutation

/-! ## Denial and crash freedom -/

namespace PodMutation

/-- C16. The synthesizer never denies. In every admission response the handler writes,
allowed is false iff the pod bytes failed to decode. Encoding the synthesized patch list
succeeds, and whenever the pod decodes and the synthesis completes the response has
allowed = true and no status, the success counter of the request has grown by 1 and the
failure counter has not changed, whatever the containers hold. -/
theorem never_denies (codec : Codec) (name : GoString) (m : Metrics)
    (body : GoString) (review : AdmissionReview) (req : AdmissionRequest) (served : Served)
    (hdec : codec.decodeReview body = .ok review) (hreq : review.Request = some req)
    (h : mutateHandler codec name m body = some served) :
    ∃ rv bytes resp, served.reply = .json rv bytes ∧ rv.Response = some resp ∧
      (resp.Allowed = false ↔ ∃ err, codec.unmarshalPod req.Object.Raw = .error err) ∧
      (∀ podObject st, codec.unmarshalPod req.Object.Raw = .ok podObject →
        synthesize req podObject = some st →
        (∃ pb, marshalPatches st.patches = .ok pb) ∧
        resp.Allowed = true ∧ resp.Result.isNone = true ∧
        served.metrics.success (name, req.Namespace, req.Name)
          = m.success (name, req.Namespace, req.Name) + 1 ∧
        served.metrics.failure = m.failure) := by
  obtain ⟨req', hreq', hcase⟩ := mutateHandler_some codec name m body review served hdec h
  rw [hreq] at hreq'
  cases hreq'
  rcases hcase with ⟨err, hpod⟩ | ⟨podObject, st, hpod, hsyn⟩
  · obtain ⟨bytes, hb⟩ :=
      mutateHandler_undecodable codec name m body review req err hdec hreq hpod
    rw [hb] at h
    cases h
    refine ⟨_, _, _, rfl, rfl, ⟨fun _ => ⟨err, hpod⟩, fun _ => rfl⟩, ?_⟩
    intro p2 s2 hp2
    rw [hpod] at hp2
    cases hp2
  · obtain ⟨bytes, patch, hb, _, _⟩ :=
      mutateHandler_synthesized codec name m body review req podObject st hdec hreq hpod hsyn
    rw [hb] at h
    cases h
    refine ⟨_, _, _, rfl, rfl, ⟨?_, ?_⟩, ?_⟩
    · intro hf
      cases hf
    · rintro ⟨err, herr⟩
      rw [hpod] at herr
      cases herr
    · intro p2 s2 _ _
      obtain ⟨pb, hpb, _⟩ := marshalPatches_ok s2.patches
      exact ⟨⟨pb, hpb⟩, rfl, rfl, inc_self _ _, rfl⟩

/-- C16, on the request of main_test.go with containers a: 50m, b: 150m, c: 100m,
d: 101m. -/
theorem never_denies_witness :
    ∃ served, mutateHandler (exampleCodec [1] (exampleReview [2]) [2]
        (examplePod mixedContainers)) (lit "unknown") zeroMetrics [1] = some served ∧
    ∃ rv bytes resp, served.reply = .json rv bytes ∧ rv.Response = some resp ∧
      (resp.Allowed = false ↔ ∃ err, (exampleCodec [1] (exampleReview [2]) [2]
        (examplePod mixedContainers)).unmarshalPod (exampleRequest [2]).Object.Raw
          = .error err) ∧
      (∀ podObject st, (exampleCodec [1] (exampleReview [2]) [2]
          (examplePod mixedContainers)).unmarshalPod (exampleRequest [2]).Object.Raw
            = .ok podObject →
        synthesize (exampleRequest [2]) podObject = some st →
        (∃ pb, marshalPatches st.patches = .ok pb) ∧
        resp.Allowed = true ∧ resp.Result.isNone = true ∧
        served.metrics.success
            (lit "unknown", (exampleRequest [2]).Namespace, (exampleRequest [2]).Name)
          = zeroMetrics.success
            (lit "unknown", (exampleRequest [2]).Namespace, (exampleRequest [2]).Name) + 1 ∧
        served.metrics.failure = zeroMetrics.failure) :=
  ⟨_, rfl, never_denies (exampleCodec [1] (exampleReview [2]) [2]
    (examplePod mixedContainers)) (lit "unknown") zeroMetrics [1] (exampleReview [2])
    (exampleRequest [2]) _ rfl rfl rfl⟩

/-- C17. Crash freedom under the shape precondition. When the envelope decodes with a
request present and the pod bytes either fail to decode or decode to an object whose
`spec` is an object, whose `spec.containers` is an array of objects and in which every
container whose name is not istio-proxy has objects at `resources` and
`resources.requests` and a non-empty string at `cpu`, the handler does not panic: it
replies with status 200 and an envelope whose response is populated, with the uid of
the request. -/
theorem crash_freedom (codec : Codec) (name : GoString) (m : Metrics)
    (body : GoString) (review : AdmissionReview) (req : AdmissionRequest)
    (hdec : codec.decodeReview body = .ok review) (hreq : review.Request = some req)
    (hshape : (∃ err, codec.unmarshalPod req.Object.Raw = .error err) ∨
      ∃ podObject spec containers,
        codec.unmarshalPod req.Object.Raw = .ok podObject ∧
        mapGet (lit "spec") podObject = some (.obj spec) ∧
        mapGet (lit "containers") spec = some (.arr containers) ∧
        ∀ d ∈ containers, ∃ containerMap, d = .obj containerMap ∧
          (nameIsNot containerMap (lit "istio-proxy") = true →
            ∃ resources requests cpu,
              mapGet (lit "resources") containerMap = some (.obj resources) ∧
              mapGet (lit "requests") resources = some (.obj requests) ∧
              mapGet (lit "cpu") requests = some (.str cpu) ∧ cpu ≠ [])) :
    ∃ served rv bytes resp, mutateHandler codec name m body = some served ∧
      served.reply = .json rv bytes ∧ served.reply.status = 200 ∧
      rv.Response = some resp ∧ resp.UID = req.UID := by
  rcases hshape with ⟨err, hpod⟩ | ⟨podObject, spec, cs, hpod, hspec, hcont, hall⟩
  · obtain ⟨bytes, hb⟩ :=
      mutateHandler_undecodable codec name m body review req err hdec hreq hpod
    exact ⟨_, _, _, _, hb, rfl, rfl, rfl, rfl⟩
  · have hcs : containersOf podObject = some cs := by
      simp [containersOf, hspec, hcont]
    obtain ⟨st, hsyn, _⟩ := synthesize_complete req podObject cs hcs (by
      intro d hd
      obtain ⟨cm, rfl, hcm⟩ := hall d hd
      by_cases hn : nameIsNot cm (lit "istio-proxy") = true
      · obtain ⟨r, q, cpu, h1, h2, h3, hne⟩ := hcm hn
        exact Or.inr ⟨cpu, by simp [cpuRequest, h1, h2, h3], hne⟩
      · left
        simp only [Bool.not_eq_true] at hn
        simp [isNamed, hn])
    obtain ⟨bytes, patch, hb, _, _⟩ :=
      mutateHandler_synthesized codec name m body review req podObject st hdec hreq hpod hsyn
    exact ⟨_, _, _, _, hb, rfl, rfl, rfl, rfl⟩

/-- C17, on the request of main_test.go with containers istio-proxy (no resources at
all) and app: 300m. -/
theorem crash_freedom_witness :
    ∃ served rv bytes resp,
      mutateHandler (exampleCodec [1] (exampleReview [2]) [2]
          (examplePod [bareContainer "istio-proxy", exampleContainer "app" "300m"]))
        (lit "unknown") zeroMetrics [1] = some served ∧
      served.reply = .json rv bytes ∧ served.reply.status = 200 ∧
      rv.Response = some resp ∧ resp.UID = (exampleRequest [2]).UID :=
  crash_freedom (exampleCodec [1] (exampleReview [2]) [2]
      (examplePod [bareContainer "istio-proxy", exampleContainer "app" "300m"]))
    (lit "unknown") zeroMetrics [1] (exampleReview [2]) (exampleRequest [2]) rfl rfl
    (Or.inr ⟨examplePod [bareContainer "istio-proxy", exampleContainer "app" "300m"],
      [(lit "containers",
        .arr [bareContainer "istio-proxy", exampleContainer "app" "300m"])],
      [bareContainer "istio-proxy", exampleContainer "app" "300m"], rfl, rfl, rfl, by
        intro d hd
        simp only [List.mem_cons, List.mem_singleton, List.not_mem_nil, or_false] at hd
        rcases hd with rfl | rfl
        · exact ⟨_, rfl, fun h => absurd h (by decide)⟩
        · exact ⟨_, rfl, fun _ => ⟨_, _, lit "300m", rfl, rfl, rfl, by decide⟩⟩⟩)

end PodMutation

/-! ## Range of the integer parse -/

namespace PodMutation

theorem Atoi_digits_range (ds : GoString) (hds : allDigits ds = true) (hne : ds ≠ [])
    (hbig : 2 ^ 63 ≤ decimalValue ds) : Atoi ds = none := by
  cases ds with
  | nil => exact absurd rfl hne
  | cons d rest =>
    have hd : 48 ≤ d ∧ d ≤ 57 := by
      simp only [allDigits, List.all_cons, Bool.and_eq_true, decide_eq_true_eq] at hds
      exact hds.1
    have h45 : ¬ d = 45 := by omega
    have h43 : ¬ d = 43 := by omega
    have hp : parseDigits (d :: rest) = some (decimalValue (d :: rest)) :=
      foldl_digits (d :: rest) hds 0
    have hnlt : ¬ decimalValue (d :: rest) < 2 ^ 63 := by omega
    simp only [Atoi, h45, h43, if_false, hp, hnlt]

theorem patchContainers_getElem? (P : List PatchOp) (cs : List Json) :
    ∀ (k j : Nat) (c : Json), cs[j]? = some c → targets P (k + j) = false →
      (patchContainers P k cs)[j]? = some c := by
  induction cs with
  | nil => intro k j c hc; simp at hc
  | cons d cs ih =>
    intro k j c hc ht
    cases j with
    | zero =>
      simp only [List.getElem?_cons_zero, Option.some.injEq] at hc
      subst hc
      simp only [Nat.add_zero] at ht
      simp [patchContainers, ht]
    | succ j =>
      rw [List.getElem?_cons_succ] at hc
      simp only [patchContainers, List.getElem?_cons_succ]
      exact ih (k + 1) j c hc (by rw [show k + 1 + j = k + (j + 1) by omega]; exact ht)

/-- C18. Integer range of the quantity parse. On a pod whose synthesis returns patch
list `st.patches`, take a container at index `i`, not named istio-proxy, whose CPU
quantity is a non-empty run of ASCII digits followed by `m`. The list has an operation
for the path of container `i` iff the value of the digits is above 100 and at most
2^63 - 1. A value above 2^63 - 1 is a parse failure: no operation has that path, and
applying the patch list leaves the container as it was. -/
theorem int_range (req : AdmissionRequest) (podObject : JsonMap) (containers : List Json)
    (st : LoopState) (i : Nat) (c : Json) (ds : GoString)
    (hcs : containersOf podObject = some containers)
    (hsyn : synthesize req podObject = some st)
    (hc : containers[i]? = some c)
    (hname : isNamed c (lit "istio-proxy") = false)
    (hcpu : cpuRequest c = some (ds ++ lit "m"))
    (hne : ds ≠ []) (hds : allDigits ds = true) :
    ((∃ p ∈ st.patches, p.field (lit "path") = some (cpuPath i)) ↔
      (100 < decimalValue ds ∧ decimalValue ds ≤ 2 ^ 63 - 1)) ∧
    (2 ^ 63 - 1 < decimalValue ds →
      Atoi (ds ++ lit "m").dropLast = none ∧
      (∀ p ∈ st.patches, p.field (lit "path") ≠ some (cpuPath i)) ∧
      (patchContainers st.patches 0 containers)[i]? = some c) := by
  have hp := synthesize_patches req podObject containers st hcs hsyn
  have hdrop : (ds ++ lit "m").dropLast = ds := by
    have : lit "m" = [109] := rfl
    rw [this, List.dropLast_concat]
  have hmem : i ∈ clampIdx 0 containers ↔ overLimit c = true := by
    rw [mem_clampIdx]
    simp [hc]
  have hpath : (∃ p ∈ st.patches, p.field (lit "path") = some (cpuPath i)) ↔
      overLimit c = true := by
    rw [← hmem, hp]
    constructor
    · rintro ⟨p, hpm, hpp⟩
      rw [List.mem_map] at hpm
      obtain ⟨k, hk, rfl⟩ := hpm
      rw [field_path_mkPatch] at hpp
      rw [← cpuPath_injective (Option.some.inj hpp)]
      exact hk
    · intro hi
      exact ⟨mkPatch i, List.mem_map.mpr ⟨i, hi, rfl⟩, field_path_mkPatch i⟩
  have hsmall : decimalValue ds ≤ 2 ^ 63 - 1 →
      overLimit c = decide (100 < decimalValue ds) := by
    intro hle
    have hA : Atoi (ds ++ lit "m").dropLast = some (decimalValue ds : Int) := by
      rw [hdrop]
      exact Atoi_digits ds hds hne (by omega)
    rw [overLimit_intro c _ _ hname hcpu hA]
    congr 1
    exact propext (by exact_mod_cast Iff.rfl)
  have hbig : 2 ^ 63 - 1 < decimalValue ds →
      Atoi (ds ++ lit "m").dropLast = none ∧ overLimit c = false := by
    intro hgt
    have hA : Atoi (ds ++ lit "m").dropLast = none := by
      rw [hdrop]
      exact Atoi_digits_range ds hds hne (by omega)
    exact ⟨hA, overLimit_of_unparsed c _ hcpu hA⟩
  constructor
  · rw [hpath]
    by_cases hle : decimalValue ds ≤ 2 ^ 63 - 1
    · rw [hsmall hle]
      simp only [decide_eq_true_eq]
      exact ⟨fun h => ⟨h, hle⟩, fun h => h.1⟩
    · obtain ⟨_, hov⟩ := hbig (by omega)
      rw [hov]
      constructor
      · intro h
        cases h
      · intro h
        exact absurd h.2 hle
  · intro hgt
    obtain ⟨hA, hov⟩ := hbig hgt
    have hno : ∀ p ∈ st.patches, p.field (lit "path") ≠ some (cpuPath i) := by
      intro p hpm hpp
      have := hpath.mp ⟨p, hpm, hpp⟩
      rw [hov] at this
      cases this
    refine ⟨hA, hno, patchContainers_getElem? st.patches containers 0 i c hc ?_⟩
    rw [Nat.zero_add, hp, targets_map]
    simp only [decide_eq_false_iff_not]
    intro hi
    have := hmem.mp hi
    rw [hov] at this
    cases this

/-- C18, on the pod with containers big: 9223372036854775808m, app: 200m, at index 0. -/
theorem int_range_witness :
    ((∃ p ∈ [mkPatch 1], p.field (lit "path") = some (cpuPath 0)) ↔
      (100 < decimalValue (lit "9223372036854775808") ∧
        decimalValue (lit "9223372036854775808") ≤ 2 ^ 63 - 1)) ∧
    (2 ^ 63 - 1 < decimalValue (lit "9223372036854775808") →
      Atoi (lit "9223372036854775808" ++ lit "m").dropLast = none ∧
      (∀ p ∈ [mkPatch 1], p.field (lit "path") ≠ some (cpuPath 0)) ∧
      (patchContainers [mkPatch 1] 0
        [exampleContainer "big" "9223372036854775808m", exampleContainer "app" "200m"])[0]?
        = some (exampleContainer "big" "9223372036854775808m")) :=
  int_range (exampleRequest [])
    (examplePod [exampleContainer "big" "9223372036854775808m",
      exampleContainer "app" "200m"])
    [exampleContainer "big" "9223372036854775808m", exampleContainer "app" "200m"]
    { patches := [mkPatch 1],
      log := [invalidCPULine (lit "9223372036854775808m") (exampleRequest [])] }
    0 (exampleContainer "big" "9223372036854775808m") (lit "9223372036854775808")
    rfl rfl rfl rfl rfl (by decide) (by decide)

end PodMutation
